import Mathlib

set_option maxHeartbeats 1000000

namespace Spec2Proof

/-! # Shallow embedding of the semantic-analysis stage

Embeds the two resolver passes (`syntax_level_check.rs`,
`variable_annotation_generation.rs`) and the type checker
(`typecheck/typechecker.rs`) of the repository.  Rust `HashMap`,
`IndexMap` and `IndexSet` side tables are modelled as association
lists; `.unwrap()` panics are modelled as an explicit `panicked`
failure value. -/

/-- Association-list lookup (Rust `HashMap::get` / `IndexMap::get`). -/
def lookupA {α β : Type} [BEq α] : List (α × β) → α → Option β
  | [], _ => none
  | (k, v) :: rest, a => if k == a then some v else lookupA rest a

/-- Association-list insert keeping the position of an existing key
(Rust `IndexMap::insert` / `HashMap::insert` value replacement). -/
def imInsert {α β : Type} [BEq α] : List (α × β) → α → β → List (α × β)
  | [], a, b => [(a, b)]
  | (k, v) :: rest, a, b =>
      if k == a then (k, b) :: rest else (k, v) :: imInsert rest a b

/-- Ordered-set insert (Rust `IndexSet::insert` / `HashSet::insert`):
append the element when absent. -/
def isInsert {α : Type} [BEq α] (l : List α) (a : α) : List α :=
  if l.contains a then l else l ++ [a]

/-- Update the value stored under a key, failing (`none`) when the key is
absent; models `map.get_mut(k).unwrap()` followed by a mutation. -/
def updA {α β : Type} [BEq α] : List (α × β) → α → (β → β) → Option (List (α × β))
  | [], _, _ => none
  | (k, v) :: rest, a, f =>
      if k == a then some ((k, f v) :: rest)
      else (updA rest a f).map ((k, v) :: ·)

/-- Token kinds mentioned by the three source files
(`parsing::lexer::TokenKind`; the lexer itself is upstream of this core). -/
inductive TokenKind where
  | Plus | Minus | Star | Slash | Power | Mod
  | TestEquals | CompareEquals | CompareNotEquals
  | CompareGreater | CompareGreaterEqual | CompareLess | CompareLessEqual
  | AndK | OrK | NotK
  | BeginBlock | Arrow | NameTok | NumberTok
  deriving DecidableEq

/-- A lexical token: kind, source position and text payload.  Per the data
model, tokens are compared by kind, position and text together, so a map
keyed by `Token` distinguishes equal spellings at different positions. -/
structure Token where
  kind : TokenKind
  line : Nat
  col : Nat
  text : String
  deriving DecidableEq

/-! ## Type algebra (`typecheck/types.rs` is upstream of `src/`; the
algebra itself is fixed by the data model: `Unspecified`, `Nothing`,
`Bool`, `Int`, `Float`, `String`, `Union`, `Callable`,
`StructDescriptor`). -/

/-- The structural type algebra of the checker. -/
inductive Ty where
  | unspecified
  | nothing
  | bool
  | int
  | float
  | string
  | union (members : List Ty)
  | callable (arguments : List Ty) (vararg : Option Ty) (returnType : Ty)
  | structDescriptor (name : String)

mutual

/-- Structural equality test on types (Rust `PartialEq` on `Type`). -/
def Ty.beq : Ty → Ty → Bool
  | .unspecified, .unspecified => true
  | .nothing, .nothing => true
  | .bool, .bool => true
  | .int, .int => true
  | .float, .float => true
  | .string, .string => true
  | .union ts, .union us => Ty.beqList ts us
  | .callable xs v r, .callable ys w s =>
      Ty.beqList xs ys && Ty.beqOpt v w && Ty.beq r s
  | .structDescriptor n, .structDescriptor m => n == m
  | _, _ => false

def Ty.beqList : List Ty → List Ty → Bool
  | [], [] => true
  | x :: xs, y :: ys => Ty.beq x y && Ty.beqList xs ys
  | _, _ => false

def Ty.beqOpt : Option Ty → Option Ty → Bool
  | none, none => true
  | some x, some y => Ty.beq x y
  | _, _ => false

end

instance : BEq Ty := ⟨Ty.beq⟩

/-- Member list of a type viewed as a union (a non-union type is a
one-element set). -/
def Ty.memberList : Ty → List Ty
  | .union ts => ts
  | t => [t]

/-- Modelled from the spec: `Type::build_union` lives in
`typecheck/types.rs`, which is not under `src/`.  The spec fixes `Union`
to hold a set of types and requires that the union of a type with itself
is that type and that a one-element result is not wrapped. -/
def buildUnion (a b : Ty) : Ty :=
  if a == b then a
  else
    match (a.memberList ++ b.memberList).foldl isInsert [] with
    | [x] => x
    | l => .union l

/-- Rust `Type::is_unspecified`. -/
def Ty.isUnspecified : Ty → Bool
  | .unspecified => true
  | _ => false

/-- Test for `Int` (Rust `matches!(t, Type::Int)`). -/
def Ty.isInt : Ty → Bool
  | .int => true
  | _ => false

/-- Test for `Int` or `Float`. -/
def Ty.isIntOrFloat : Ty → Bool
  | .int => true
  | .float => true
  | _ => false

/-- Test for `Bool`. -/
def Ty.isBool : Ty → Bool
  | .bool => true
  | _ => false

/-- Test for `String`. -/
def Ty.isString : Ty → Bool
  | .string => true
  | _ => false

/-- Modelled from the spec: the compatibility relation
`provided ⊑ expected` (`PartialOrd::le` on `Type`, in the missing
`types.rs`): reflexive on identical types, `Unspecified` compatible in
either position, a union compatible as provided only when every member
is accepted by the expected type. -/
def tyLE : Ty → Ty → Bool
  | _, .unspecified => true
  | .unspecified, _ => true
  | .union ts, e => ts.attach.all (fun ⟨t, _⟩ => tyLE t e)
  | a, e => a == e
termination_by t _ => sizeOf t
decreasing_by
  simp_wf
  have := List.sizeOf_lt_of_mem ‹_ ∈ ts›
  omega

/-- Modelled from the spec: the arity shape of a callable — a fixed
count, or a fixed count plus unbounded vararg (`execution::arity::Arity`
is not under `src/`). -/
inductive ArityT where
  | exact (n : Nat)
  | atLeast (n : Nat)
  deriving DecidableEq

/-- Modelled from the spec: `Arity::accepts` — a fixed arity accepts
exactly its count, a vararg arity accepts any count at least the fixed
parameter count. -/
def ArityT.accepts : ArityT → Nat → Bool
  | .exact n, m => n == m
  | .atLeast n, m => n ≤ m

/-- Modelled from the spec: `Type::get_arity` (missing `types.rs`).  A
callable exposes its parameter-list arity; `Union` and
`StructDescriptor` callees pass the arity gate and short-circuit, other
types expose no arity and cannot be called. -/
def Ty.getArity : Ty → Option ArityT
  | .callable args none _ => some (.exact args.length)
  | .callable args (some _) _ => some (.atLeast args.length)
  | .union _ => some (.atLeast 0)
  | .structDescriptor _ => some (.atLeast 0)
  | _ => none

/-- The checker's error taxonomy (`SomewhereTypeError`); source
positions are dropped by the embedding. -/
inductive TcErr where
  | typeMismatch (expected got : Ty)
  | unspecifiedBinary (left : Ty) (op : Token) (right : Ty)
  | unknownType
  | arityMismatch (expected : ArityT) (got : Nat)
  | operationUnsupported (target : Ty)
  | attributeError (target : Ty) (field : String)

/-- A checker outcome that is not a value: a `TypeError`, or a Rust
panic (`unwrap` / `unimplemented!` / `unreachable!`). -/
inductive TcFail where
  | panicked
  | err (e : TcErr)

/-- `Checker::check_expectation`: succeed when `provided ⊑ expected`,
else `TypeMismatch { expected, got }`. -/
def checkExpectation (provided expected : Ty) : Except TcFail Unit :=
  if tyLE provided expected then .ok ()
  else .error (.err (.typeMismatch expected provided))

/-- `number_upcast_binary_op`: both operands must be `Int` or `Float`;
the result is `Int` exactly when both are `Int`, else `Float`. -/
def numberUpcastBinaryOp (left right : Ty) : Except TcFail Ty :=
  if ¬ left.isIntOrFloat then
    .error (.err (.typeMismatch (buildUnion .int .float) left))
  else if ¬ right.isIntOrFloat then
    .error (.err (.typeMismatch (buildUnion .int .float) right))
  else if left.isInt && right.isInt then .ok .int
  else .ok .float

/-- The operator dispatch of `Checker::visit_binary_expr`, after both
operand types have been computed; the match arms appear in source
order. -/
def binaryRule (op : Token) (left right : Ty) : Except TcFail Ty :=
  if op.kind = .CompareEquals ∨ op.kind = .CompareNotEquals then .ok .bool
  else if left.isUnspecified then .ok .unspecified
  else if right.isUnspecified then .ok .unspecified
  else if left.isInt && op.kind = .Mod && right.isInt then .ok .int
  else if left.isBool && op.kind = .OrK && right.isBool then .ok .bool
  else if left.isBool && op.kind = .AndK && right.isBool then .ok .bool
  else if op.kind = .Minus ∨ op.kind = .Star ∨ op.kind = .Slash ∨ op.kind = .Power then
    numberUpcastBinaryOp left right
  else if op.kind = .Plus then
    if left.isString && right.isString then .ok .string
    else numberUpcastBinaryOp left right
  else if op.kind = .CompareGreater ∨ op.kind = .CompareGreaterEqual ∨
          op.kind = .CompareLess ∨ op.kind = .CompareLessEqual then
    if left.isString && right.isString then .ok .bool
    else (numberUpcastBinaryOp left right).map (fun _ => .bool)
  else if op.kind = .OrK ∨ op.kind = .AndK then .ok (buildUnion left right)
  else .error (.err (.unspecifiedBinary left op right))

/-- The operator dispatch of `Checker::visit_unary_expr` after the
operand type is computed: `not` always yields `Bool`, any other
operator on `Unspecified` yields `Unspecified`, every remaining
combination is `unimplemented!` (a panic). -/
def unaryRule (op : Token) (t : Ty) : Except TcFail Ty :=
  if op.kind = .NotK then .ok .bool
  else if t.isUnspecified then .ok .unspecified
  else .error .panicked

/-- Sequential argument checking: `req_args.zip(args).try_for_each`
over `check_expectation`; the zip stops at the shorter list. -/
def checkArgs : List Ty → List Ty → Except TcFail Unit
  | e :: es, p :: ps => do
      let _ ← checkExpectation p e
      checkArgs es ps
  | _, _ => .ok ()

/-- The pure core of `Checker::visit_call_expr`, applied to the callee
type and the already-computed argument types. -/
def callRule (targetT : Ty) (args : List Ty) : Except TcFail Ty :=
  if targetT.isUnspecified then .ok .unspecified
  else
    match targetT.getArity with
    | none => .error (.err (.operationUnsupported targetT))
    | some arity =>
      if ¬ arity.accepts args.length then
        .error (.err (.arityMismatch arity args.length))
      else
        match targetT with
        | .structDescriptor _ => .ok .unspecified
        | .union _ => .ok .unspecified
        | .callable cargs va ret =>
            let req :=
              match va with
              | some v => cargs ++ List.replicate (args.length - cargs.length) v
              | none => cargs
            (checkArgs req args).map (fun _ => ret)
        | _ => .error .panicked

/-! ## Typechecker syntax tree (`parsing::ast`, upstream of this core;
constructors are those consumed by the checker's visitor).  A
`TypeMention` is modelled as the type it denotes: `TypeBuilder` is not
under `src/` and no claim concerns `UnknownType`. -/

/-- A name with an optional type annotation (`TypedName`). -/
structure TypedName where
  name : Token
  typeName : Option Ty

mutual

/-- Expressions consumed by the checker's visitor. -/
inductive TExpr where
  | boolLit (t : Token)
  | numberLit (t : Token)
  | floatLit (t : Token)
  | stringLit (t : Token)
  | ident (t : Token)
  | binary (op : Token) (left right : TExpr)
  | unary (op : Token) (arg : TExpr)
  | cond (condition thenBranch : TExpr) (elseBranch : Option TExpr)
  | blockE (startTok endTok : Token) (stmts : List TStmt)
  | singleStatement (s : TStmt)
  | call (target : TExpr) (args : List TExpr)
  | partialCallE (target : TExpr) (args : List (Option TExpr))
  | anonFunction (args : List TypedName) (vararg : Option TypedName)
      (arrow : Token) (body : TExpr)
  | propertyAccess (target : TExpr) (prop : Token)
  | propertyCheck (target : TExpr) (prop : Token)

/-- Statements consumed by the checker's visitor. -/
inductive TStmt where
  | varDeclaration (v : TypedName) (rhs : Option TExpr)
  | assignment (target : Token) (value : TExpr)
  | expression (e : TExpr)
  | assertStmt (kw : Token) (e : TExpr)
  | passStmt (kw : Token)
  | functionDeclaration (name : Token) (args : List TypedName)
      (vararg : Option TypedName) (body : TExpr) (returns : Option Ty)
  | structDeclaration (name : Token) (fields : List TypedName)
  | enumDeclaration (name : Token) (variants : List Token)
  | propertyAssignment (target value : TExpr)
  | implBlock (name : Token) (implementations : List TStmt)
  | importStmt (module : List Token) (name : Token) (rename : Option Token)

end

/-- Equality of typed names (name token and annotation). -/
def TypedName.beq (a b : TypedName) : Bool :=
  a.name == b.name && Ty.beqOpt a.typeName b.typeName

/-- Equality of typed-name lists. -/
def tnListBeq : List TypedName → List TypedName → Bool
  | [], [] => true
  | x :: xs, y :: ys => TypedName.beq x y && tnListBeq xs ys
  | _, _ => false

/-- Equality of optional typed names. -/
def tnOptBeq : Option TypedName → Option TypedName → Bool
  | none, none => true
  | some x, some y => TypedName.beq x y
  | _, _ => false

mutual

/-- Structural equality of expressions (Rust `PartialEq` on `Expr`,
used for keying the type map by node value). -/
def TExpr.beq : TExpr → TExpr → Bool
  | .boolLit t, .boolLit u => t == u
  | .numberLit t, .numberLit u => t == u
  | .floatLit t, .floatLit u => t == u
  | .stringLit t, .stringLit u => t == u
  | .ident t, .ident u => t == u
  | .binary o a b, .binary p c d => o == p && TExpr.beq a c && TExpr.beq b d
  | .unary o a, .unary p c => o == p && TExpr.beq a c
  | .cond c t e, .cond c2 t2 e2 =>
      TExpr.beq c c2 && TExpr.beq t t2 && TExpr.beqOpt e e2
  | .blockE s e l, .blockE s2 e2 l2 => s == s2 && e == e2 && TStmt.beqList l l2
  | .singleStatement s, .singleStatement s2 => TStmt.beq s s2
  | .call t l, .call t2 l2 => TExpr.beq t t2 && TExpr.beqList l l2
  | .partialCallE t l, .partialCallE t2 l2 =>
      TExpr.beq t t2 && TExpr.beqOptList l l2
  | .anonFunction a v w b, .anonFunction a2 v2 w2 b2 =>
      tnListBeq a a2 && tnOptBeq v v2 && w == w2 && TExpr.beq b b2
  | .propertyAccess t p, .propertyAccess t2 p2 => TExpr.beq t t2 && p == p2
  | .propertyCheck t p, .propertyCheck t2 p2 => TExpr.beq t t2 && p == p2
  | _, _ => false

/-- Structural equality of statements. -/
def TStmt.beq : TStmt → TStmt → Bool
  | .varDeclaration v r, .varDeclaration v2 r2 =>
      TypedName.beq v v2 && TExpr.beqOpt r r2
  | .assignment t v, .assignment t2 v2 => t == t2 && TExpr.beq v v2
  | .expression e, .expression e2 => TExpr.beq e e2
  | .assertStmt k e, .assertStmt k2 e2 => k == k2 && TExpr.beq e e2
  | .passStmt k, .passStmt k2 => k == k2
  | .functionDeclaration n a v b r, .functionDeclaration n2 a2 v2 b2 r2 =>
      n == n2 && tnListBeq a a2 && tnOptBeq v v2 && TExpr.beq b b2 &&
        Ty.beqOpt r r2
  | .structDeclaration n f, .structDeclaration n2 f2 => n == n2 && tnListBeq f f2
  | .enumDeclaration n v, .enumDeclaration n2 v2 => n == n2 && v == v2
  | .propertyAssignment t v, .propertyAssignment t2 v2 =>
      TExpr.beq t t2 && TExpr.beq v v2
  | .implBlock n l, .implBlock n2 l2 => n == n2 && TStmt.beqList l l2
  | .importStmt m n r, .importStmt m2 n2 r2 => m == m2 && n == n2 && r == r2
  | _, _ => false

/-- Equality of expression lists. -/
def TExpr.beqList : List TExpr → List TExpr → Bool
  | [], [] => true
  | x :: xs, y :: ys => TExpr.beq x y && TExpr.beqList xs ys
  | _, _ => false

/-- Equality of optional-expression lists. -/
def TExpr.beqOptList : List (Option TExpr) → List (Option TExpr) → Bool
  | [], [] => true
  | x :: xs, y :: ys => TExpr.beqOpt x y && TExpr.beqOptList xs ys
  | _, _ => false

/-- Equality of optional expressions. -/
def TExpr.beqOpt : Option TExpr → Option TExpr → Bool
  | none, none => true
  | some x, some y => TExpr.beq x y
  | _, _ => false

/-- Equality of statement lists. -/
def TStmt.beqList : List TStmt → List TStmt → Bool
  | [], [] => true
  | x :: xs, y :: ys => TStmt.beq x y && TStmt.beqList xs ys
  | _, _ => false

end

/-- Key of the type map (`Typable`): an expression, a statement, or a
definition token. -/
inductive Typable where
  | expr (e : TExpr)
  | stmt (s : TStmt)
  | defn (t : Token)

/-- Equality of type-map keys. -/
def Typable.beq : Typable → Typable → Bool
  | .expr e, .expr e2 => TExpr.beq e e2
  | .stmt s, .stmt s2 => TStmt.beq s s2
  | .defn t, .defn t2 => t == t2
  | _, _ => false

instance : BEq Typable := ⟨Typable.beq⟩

/-- Checker state: the annotation store's definition lookup
(`Annotations::get_definiton`, modelled as a token map since
`checks/mod.rs` is not under `src/`) and the type map being built. -/
structure TCState where
  getDefinition : Token → Option Token
  typeMap : List (Typable × Ty)

/-- `Typemap::type_of`: lookup with `Unspecified` as the default. -/
def typeOf (st : TCState) (k : Typable) : Ty :=
  (lookupA st.typeMap k).getD .unspecified

/-- `Typemap::add_expr`. -/
def addExprTy (st : TCState) (e : TExpr) (t : Ty) : TCState :=
  { st with typeMap := imInsert st.typeMap (.expr e) t }

/-- `Typemap::add_stmt`. -/
def addStmtTy (st : TCState) (s : TStmt) (t : Ty) : TCState :=
  { st with typeMap := imInsert st.typeMap (.stmt s) t }

/-- `Typemap::add_definition`. -/
def addDefTy (st : TCState) (tok : Token) (t : Ty) : TCState :=
  { st with typeMap := imInsert st.typeMap (.defn tok) t }

/-- `Checker::lookup_type_of`: annotated type, or `Unspecified`. -/
def lookupTypeOf (n : TypedName) : Ty :=
  n.typeName.getD .unspecified

/-- `Checker::build_function_type` over `Type::build_function`. -/
def buildFunctionType (args : List TypedName) (va : Option TypedName)
    (ret : Ty) : Ty :=
  .callable (args.map lookupTypeOf) (va.map lookupTypeOf) ret

/-- `Checker::perform_block_predef`: record every `var` and function
declaration of the block before visiting statement bodies. -/
def performBlockPredef (st : TCState) (stmts : List TStmt) : TCState :=
  stmts.foldl
    (fun st stmt =>
      match stmt with
      | .varDeclaration v _ => addDefTy st v.name (lookupTypeOf v)
      | .functionDeclaration nm args va _ returns =>
          addDefTy st nm (buildFunctionType args va (returns.getD .unspecified))
      | _ => st)
    st

/-- Record parameter (and vararg) definitions, as done at the head of
`visit_function_declaration_statement` and `visit_anon_function_expr`. -/
def addArgDefs (st : TCState) (args : List TypedName)
    (va : Option TypedName) : TCState :=
  (args ++ va.toList).foldl (fun st a => addDefTy st a.name (lookupTypeOf a)) st

mutual

/-- The checker's expression walk (`Visitor::visit_expr` dispatch plus
the `after_expr` recording of the computed type). -/
def visitExpr (st : TCState) : TExpr → Except TcFail (TCState × Ty)
  | .boolLit t => .ok (addExprTy st (.boolLit t) .bool, .bool)
  | .numberLit t => .ok (addExprTy st (.numberLit t) .int, .int)
  | .floatLit t => .ok (addExprTy st (.floatLit t) .float, .float)
  | .stringLit t => .ok (addExprTy st (.stringLit t) .string, .string)
  | .ident t =>
      let ty := ((st.getDefinition t).map (fun d => typeOf st (.defn d))).getD
        .unspecified
      .ok (addExprTy st (.ident t) ty, ty)
  | .binary op a b => do
      let (st1, l) ← visitExpr st a
      let (st2, r) ← visitExpr st1 b
      let t ← binaryRule op l r
      .ok (addExprTy st2 (.binary op a b) t, t)
  | .unary op a => do
      let (st1, t0) ← visitExpr st a
      let t ← unaryRule op t0
      .ok (addExprTy st1 (.unary op a) t, t)
  | .cond c tb eb => do
      let (st1, ct) ← visitExpr st c
      let _ ← checkExpectation ct .bool
      let (st2, tt) ← visitExpr st1 tb
      let (st3, et) ← visitElse st2 eb
      let t := buildUnion tt et
      .ok (addExprTy st3 (.cond c tb eb) t, t)
  | .blockE t1 t2 stmts => do
      let st0 := performBlockPredef st stmts
      let (st1, t) ← visitBlockStmts st0 stmts
      .ok (addExprTy st1 (.blockE t1 t2 stmts) t, t)
  | .singleStatement s => do
      let (st1, t) ← visitStmt st s
      .ok (addExprTy st1 (.singleStatement s) t, t)
  | .call target args => do
      let (st1, tt) ← visitExpr st target
      let (st2, argTs) ← visitExprList st1 args
      let t ← callRule tt argTs
      .ok (addExprTy st2 (.call target args) t, t)
  | .partialCallE target args => do
      let (st1, _) ← visitExpr st target
      let st2 ← visitOptList st1 args
      .ok (addExprTy st2 (.partialCallE target args) .unspecified, .unspecified)
  | .anonFunction args va arrow body => do
      let st0 := addArgDefs st args va
      let (st1, ret) ← visitExpr st0 body
      let t := buildFunctionType args va ret
      .ok (addExprTy st1 (.anonFunction args va arrow body) t, t)
  | .propertyAccess target prop => do
      let (st1, _) ← visitExpr st target
      .ok (addExprTy st1 (.propertyAccess target prop) .unspecified, .unspecified)
  | .propertyCheck target prop => do
      let (st1, _) ← visitExpr st target
      .ok (addExprTy st1 (.propertyCheck target prop) .bool, .bool)

/-- The else-branch visit of `visit_cond_expr` (`Nothing` when absent). -/
def visitElse (st : TCState) : Option TExpr → Except TcFail (TCState × Ty)
  | some e => visitExpr st e
  | none => .ok (st, .nothing)

/-- The statement walk of `Checker::visit_block`: all statements but the
last are visited for effect, the last supplies the block's type.  On an
empty block `split_last().unwrap()` panics. -/
def visitBlockStmts (st : TCState) : List TStmt → Except TcFail (TCState × Ty)
  | [] => .error .panicked
  | [s] => visitStmt st s
  | s :: rest => do
      let (st1, _) ← visitStmt st s
      visitBlockStmts st1 rest

/-- Argument-list visit of `visit_call_expr`, collecting types. -/
def visitExprList (st : TCState) : List TExpr → Except TcFail (TCState × List Ty)
  | [] => .ok (st, [])
  | e :: es => do
      let (st1, t) ← visitExpr st e
      let (st2, ts) ← visitExprList st1 es
      .ok (st2, t :: ts)

/-- Argument visit of `visit_partial_call_expr` (present arguments only). -/
def visitOptList (st : TCState) : List (Option TExpr) → Except TcFail TCState
  | [] => .ok st
  | none :: rest => visitOptList st rest
  | some e :: rest => do
      let (st1, _) ← visitExpr st e
      visitOptList st1 rest

/-- Sequential statement visiting discarding values (used by
`typecheck`'s top-level loop and `visit_impl_block`). -/
def visitStmtSeq (st : TCState) : List TStmt → Except TcFail TCState
  | [] => .ok st
  | s :: rest => do
      let (st1, _) ← visitStmt st s
      visitStmtSeq st1 rest

/-- The checker's statement walk (dispatch plus `after_stmt` recording). -/
def visitStmt (st : TCState) : TStmt → Except TcFail (TCState × Ty)
  | .varDeclaration v rhs => do
      let st1 ←
        match rhs with
        | some e => do
            let (st1, t) ← visitExpr st e
            let _ ← checkExpectation t (lookupTypeOf v)
            pure st1
        | none => pure st
      .ok (addStmtTy st1 (.varDeclaration v rhs) .nothing, .nothing)
  | .assignment target value => do
      let (st1, vt) ← visitExpr st value
      let defT := ((st1.getDefinition target).map
        (fun d => typeOf st1 (.defn d))).getD .unspecified
      let _ ← checkExpectation vt defT
      .ok (addStmtTy st1 (.assignment target value) .nothing, .nothing)
  | .expression e => do
      let (st1, t) ← visitExpr st e
      .ok (addStmtTy st1 (.expression e) t, t)
  | .assertStmt kw e => do
      let (st1, t) ← visitExpr st e
      let _ ← checkExpectation t .bool
      .ok (addStmtTy st1 (.assertStmt kw e) .nothing, .nothing)
  | .passStmt kw => .ok (addStmtTy st (.passStmt kw) .nothing, .nothing)
  | .functionDeclaration name args va body returns => do
      let st0 := addArgDefs st args va
      let (st1, provided) ← visitExpr st0 body
      let _ ← checkExpectation provided (returns.getD .unspecified)
      .ok (addStmtTy st1 (.functionDeclaration name args va body returns)
        .nothing, .nothing)
  | .structDeclaration name fields =>
      .ok (addStmtTy st (.structDeclaration name fields) .nothing, .nothing)
  | .enumDeclaration name variants =>
      .ok (addStmtTy st (.enumDeclaration name variants) .nothing, .nothing)
  | .propertyAssignment target value => do
      let (st1, _) ← visitExpr st target
      let (st2, _) ← visitExpr st1 value
      .ok (addStmtTy st2 (.propertyAssignment target value) .nothing, .nothing)
  | .implBlock name impls => do
      let st1 ← visitStmtSeq st impls
      .ok (addStmtTy st1 (.implBlock name impls) .nothing, .nothing)
  | .importStmt m n r =>
      .ok (addStmtTy st (.importStmt m n r) .nothing, .nothing)

end

/-- `Checker::typecheck`: pre-declare the program block, then visit each
top-level statement. -/
def typecheck (getDef : Token → Option Token) (program : List TStmt) :
    Except TcFail TCState := do
  let st := performBlockPredef ⟨getDef, []⟩ program
  visitStmtSeq st program

/-! ## Scope & capture resolution, shared data -/

/-- Scope kind (`ScopeType`): block or function boundary. -/
inductive ScopeType where
  | Block
  | Function
  deriving DecidableEq

/-- Storage classification of a declared variable (`VariableType`).
`Closed` is declared in the source but never assigned. -/
inductive VariableType where
  | Normal
  | Boxed
  | Closed
  deriving DecidableEq

/-- One entry of the scope stack: kind, identifying token, and the
name → definedness map used during the walk. -/
structure Scope where
  stype : ScopeType
  tok : Token
  map : List (String × Bool)
  deriving DecidableEq

namespace SLC

/-! ## Variant 1: `syntax_level_check.rs` (`Checker`) -/

/-- Failure kinds of the syntax-level checker.  The source returns
formatted strings; the embedding keeps the kind and models the
`unwrap`/`panic!` calls as `panicked`. -/
inductive CheckError where
  | noSuchVariable
  | useBeforeDefinition
  | duplicateDeclaration
  | doubleDefinition
  | notDeclared
  | cannotCompileOperator
  | panicked
  deriving DecidableEq

/-- A name-resolution failure (as opposed to an operator restriction or
a panic). -/
def CheckError.isNameError : CheckError → Bool
  | .noSuchVariable => true
  | .useBeforeDefinition => true
  | .duplicateDeclaration => true
  | .doubleDefinition => true
  | .notDeclared => true
  | _ => false

/-- The checker's state (`struct Checker`); list heads are the Rust
vectors' last elements (top of stack). -/
structure St where
  names : List Scope
  totalVariables : Nat
  currentBlock : List Token
  currentFunction : List Token
  variableTypes : List (Token × List (String × VariableType))
  closedNames : List (Token × List String)
  deriving DecidableEq

/-- Fold of the `for function in depending_functions` loop: insert the
name into each depending function's closure set, failing on a missing
entry (`get_mut(..).unwrap()`). -/
def depsFold (cn : List (Token × List String)) (name : String) :
    List Token → Option (List (Token × List String))
  | [] => some cn
  | d :: ds => (updA cn d (fun l => isInsert l name)).bind (depsFold · name ds)

/-- The outer-search phase of `Checker::lookup_local` (iterations with
`passed_function_scope == true`): the first scope whose map contains the
name receives the `Boxed` classification, the current function and every
depending function passed on the way receive the name in their closure
sets; function scopes not containing the name accumulate as depending
functions. -/
def goOuter (st : St) (name : String) (deps : List Token) :
    List Scope → Except CheckError St
  | [] => .error .noSuchVariable
  | s :: rest =>
    if (lookupA s.map name).isSome then
      match updA st.variableTypes s.tok (fun m => imInsert m name .Boxed) with
      | none => .error .panicked
      | some vt =>
        match st.currentFunction.head? with
        | none => .error .panicked
        | some cf =>
          match updA st.closedNames cf (fun l => isInsert l name) with
          | none => .error .panicked
          | some cn =>
            match depsFold cn name deps with
            | none => .error .panicked
            | some cn2 => .ok { st with variableTypes := vt, closedNames := cn2 }
    else if s.stype = .Function then goOuter st name (isInsert deps s.tok) rest
    else goOuter st name deps rest

/-- The local-search phase of `Checker::lookup_local` (iterations with
`passed_function_scope == false`): a defined entry resolves, a
declared-but-undefined entry is a use-before-definition error, and
passing a function boundary switches to the outer search. -/
def goLocal (st : St) (name : String) : List Scope → Except CheckError St
  | [] => .error .noSuchVariable
  | s :: rest =>
    match lookupA s.map name with
    | some true => .ok st
    | some false => .error .useBeforeDefinition
    | none =>
      match s.stype with
      | .Block => goLocal st name rest
      | .Function => goOuter st name [] rest

/-- `Checker::lookup_local`, walking the scope stack top-down. -/
def lookupLocal (st : St) (name : Token) : Except CheckError St :=
  goLocal st name.text st.names

/-- `Checker::define_name`: flip a declared entry of the innermost scope
to defined. -/
def defineName (st : St) (v : Token) : Except CheckError St :=
  match st.names with
  | [] => .error .panicked
  | s :: rest =>
    match lookupA s.map v.text with
    | some true => .error .doubleDefinition
    | some false =>
        .ok { st with names := { s with map := imInsert s.map v.text true } :: rest }
    | none => .error .notDeclared

/-- `Checker::declare_name`: add an undefined entry to the innermost
scope and a `Normal` classification to the current block's variable
map. -/
def declareName (st : St) (v : Token) : Except CheckError St :=
  match st.names with
  | [] => .error .panicked
  | s :: rest =>
    if (lookupA s.map v.text).isSome then .error .duplicateDeclaration
    else
      match st.currentBlock.head? with
      | none => .error .panicked
      | some cb =>
        match updA st.variableTypes cb (fun m => imInsert m v.text .Normal) with
        | none => .error .panicked
        | some vt =>
          .ok { st with
            names := { s with map := imInsert s.map v.text false } :: rest,
            totalVariables := st.totalVariables + 1,
            variableTypes := vt }

/-- `Checker::new_scope`. -/
def newScope (st : St) (stype : ScopeType) (tok : Token) : St :=
  let st :=
    if stype = .Function then
      { st with currentFunction := tok :: st.currentFunction,
                closedNames := imInsert st.closedNames tok [] }
    else st
  { st with
    names := ⟨stype, tok, []⟩ :: st.names,
    currentBlock := tok :: st.currentBlock,
    variableTypes := imInsert st.variableTypes tok [] }

/-- `Checker::pop_scope`; popping an empty stack is an `unwrap` panic. -/
def popScope (st : St) : Except CheckError St :=
  match st.names with
  | [] => .error .panicked
  | s :: rest =>
    let st1 := { st with names := rest }
    let st2 :=
      if s.stype = .Function then
        { st1 with currentFunction := st1.currentFunction.tail }
      else st1
    .ok { st2 with
      totalVariables := st2.totalVariables - s.map.length,
      currentBlock := st2.currentBlock.tail }

mutual

/-- The syntax tree walked by the syntax-level checker
(`parsing::ast` as consumed by `syntax_level_check.rs`). -/
inductive SExpr where
  | number (t : Token)
  | name (t : Token)
  | binary (op : Token) (a b : SExpr)
  | ifExpr (cond thenBody : SExpr) (elseBody : Option SExpr)
  | block (tok : Token) (stmts : List SStmt)
  | call (target : SExpr) (args : List SExpr)
  | singleStatement (s : SStmt)

/-- Statements walked by the syntax-level checker. -/
inductive SStmt where
  | print (e : SExpr)
  | varDeclaration (name : Token) (body : Option SExpr)
  | assignment (target : Token) (e : SExpr)
  | expression (e : SExpr)
  | assertStmt (kw : Token) (e : SExpr)
  | functionDeclaration (name : Token) (args : List Token) (body : SExpr)

end

/-- Binary operators the syntax-level checker accepts
(`Plus | Minus | Star | Slash | TestEquals`). -/
def supportedOp (k : TokenKind) : Bool :=
  match k with
  | .Plus | .Minus | .Star | .Slash | .TestEquals => true
  | _ => false

/-- The pre-declaration loop at the head of `Checker::visit_block`. -/
def predeclareBlock (st : St) : List SStmt → Except CheckError St
  | [] => .ok st
  | s :: rest =>
    match s with
    | .varDeclaration n _ => do
        let st1 ← declareName st n
        predeclareBlock st1 rest
    | .functionDeclaration n _ _ => do
        let st1 ← declareName st n
        predeclareBlock st1 rest
    | _ => predeclareBlock st rest

/-- Parameter handling of `Checker::check_function`: declare and define
each argument name in order. -/
def declareDefineArgs (st : St) : List Token → Except CheckError St
  | [] => .ok st
  | a :: rest => do
      let st1 ← declareName st a
      let st2 ← defineName st1 a
      declareDefineArgs st2 rest

mutual

/-- `Checker::visit_expr`. -/
def visitExprS (st : St) : SExpr → Except CheckError St
  | .number _ => .ok st
  | .name n => lookupLocal st n
  | .binary op a b => do
      let st1 ← visitExprS st a
      let st2 ← visitExprS st1 b
      if supportedOp op.kind then .ok st2
      else .error .cannotCompileOperator
  | .ifExpr c t e => do
      let st1 ← visitExprS st c
      let st2 ← visitExprS st1 t
      match e with
      | some e => visitExprS st2 e
      | none => .ok st2
  | .block tok stmts => visitBlockS st stmts tok
  | .call target args => do
      let st1 ← visitExprS st target
      visitExprListS st1 args
  | .singleStatement s => visitStmtS st s
termination_by e => (sizeOf e, 0)

/-- Call-argument loop of `Checker::visit_expr`. -/
def visitExprListS (st : St) : List SExpr → Except CheckError St
  | [] => .ok st
  | e :: rest => do
      let st1 ← visitExprS st e
      visitExprListS st1 rest
termination_by l => (sizeOf l, 0)

/-- `Checker::visit_stmt`. -/
def visitStmtS (st : St) : SStmt → Except CheckError St
  | .print e => visitExprS st e
  | .varDeclaration n body => do
      let st1 ←
        match body with
        | some e => visitExprS st e
        | none => .ok st
      defineName st1 n
  | .assignment target e => do
      let st1 ← lookupLocal st target
      visitExprS st1 e
  | .expression e => visitExprS st e
  | .assertStmt _ e => visitExprS st e
  | .functionDeclaration n args body => do
      let st1 ← checkFunctionS st n args body
      defineName st1 n
termination_by s => (sizeOf s, 0)

/-- `Checker::check_function`: a `Function` scope holding the function's
own name and parameters wraps the body visit. -/
def checkFunctionS (st : St) (name : Token) (args : List Token)
    (body : SExpr) : Except CheckError St := do
  let st0 := newScope st .Function name
  let st1 ← declareName st0 name
  let st2 ← defineName st1 name
  let st3 ← declareDefineArgs st2 args
  let st4 ← visitExprS st3 body
  popScope st4
termination_by (sizeOf body, 1)

/-- `Checker::visit_block`: push a `Block` scope, pre-declare, visit
each statement, pop. -/
def visitBlockS (st : St) (stmts : List SStmt) (blockId : Token) :
    Except CheckError St := do
  let st0 := newScope st .Block blockId
  let st1 ← predeclareBlock st0 stmts
  let st2 ← visitStmtsS st1 stmts
  popScope st2
termination_by (sizeOf stmts, 1)

/-- Statement loop of `Checker::visit_block`. -/
def visitStmtsS (st : St) : List SStmt → Except CheckError St
  | [] => .ok st
  | s :: rest => do
      let st1 ← visitStmtS st s
      visitStmtsS st1 rest
termination_by l => (sizeOf l, 0)

end

/-- `syntax_level_check::check`: the program must be a block (anything
else is a `panic!`); an extra copy of the block token is pushed onto
`current_block` before the walk. -/
def check (program : SExpr) :
    Except CheckError
      (List (Token × List (String × VariableType)) × List (Token × List String)) :=
  match program with
  | .block tok stmts =>
      let st0 : St := ⟨[], 0, [], [], [], []⟩
      let st1 := newScope st0 .Block tok
      let st2 := { st1 with currentBlock := tok :: st1.currentBlock }
      (visitExprS st2 (.block tok stmts)).map
        (fun st => (st.variableTypes, st.closedNames))
  | _ => .error .panicked

mutual

/-- All binary operators of an expression are accepted ones. -/
def opsE : SExpr → Bool
  | .number _ => true
  | .name _ => true
  | .binary op a b => supportedOp op.kind && opsE a && opsE b
  | .ifExpr c t e => opsE c && opsE t && opsOptE e
  | .block _ stmts => opsL stmts
  | .call t args => opsE t && opsEL args
  | .singleStatement s => opsS s

/-- Operator check for an optional expression. -/
def opsOptE : Option SExpr → Bool
  | none => true
  | some e => opsE e

/-- All binary operators of a statement are accepted ones. -/
def opsS : SStmt → Bool
  | .print e => opsE e
  | .varDeclaration _ body => opsOptE body
  | .assignment _ e => opsE e
  | .expression e => opsE e
  | .assertStmt _ e => opsE e
  | .functionDeclaration _ _ body => opsE body

/-- Operator check for a statement list. -/
def opsL : List SStmt → Bool
  | [] => true
  | s :: rest => opsS s && opsL rest

/-- Operator check for an expression list. -/
def opsEL : List SExpr → Bool
  | [] => true
  | e :: rest => opsE e && opsEL rest

end

end SLC

namespace VAG

/-! ## Variant 2: `checks/variable_annotation_generation.rs`
(`AnnotationGenerator`).  The `Annotations` store itself lives in
`checks/mod.rs` (not under `src/`); it is modelled from the spec's
Annotation Store: a block-scope variable map and a closure set, both
keyed by identifying token, with `get_or_create` access. -/

/-- The annotation store being filled. -/
structure Store where
  blockScopes : List (Token × List (String × VariableType))
  closureScopes : List (Token × List String)
  deriving DecidableEq

/-- `get_or_create_block_scope(tok).insert(name, vt)`. -/
def storeBlockInsert (store : Store) (tok : Token) (name : String)
    (vt : VariableType) : Store :=
  let m := (lookupA store.blockScopes tok).getD []
  { store with blockScopes := imInsert store.blockScopes tok (imInsert m name vt) }

/-- `get_or_create_closure_scope(tok).insert(name)`. -/
def storeClosureInsert (store : Store) (tok : Token) (name : String) : Store :=
  let s := (lookupA store.closureScopes tok).getD []
  { store with closureScopes := imInsert store.closureScopes tok (isInsert s name) }

/-- The annotation generator's state: the store and the scope stack
(list head = innermost scope). -/
structure AGSt where
  store : Store
  scopes : List Scope
  deriving DecidableEq

/-- `AnnotationGenerator::lookup_local`: search for an initialized entry
up to and including the nearest function boundary. -/
def lookupLocalV (name : String) : List Scope → Bool
  | [] => false
  | s :: rest =>
    if lookupA s.map name = some true then true
    else if s.stype = .Function then false
    else lookupLocalV name rest

/-- The post-boundary phase of `AnnotationGenerator::lookup_outer`. -/
def outerPhase (name : String) : List Scope → Bool
  | [] => false
  | s :: rest =>
    if (lookupA s.map name).isSome then true else outerPhase name rest

/-- `AnnotationGenerator::lookup_outer`: scan for the name past the
nearest function boundary. -/
def lookupOuterV (name : String) : List Scope → Bool
  | [] => false
  | s :: rest =>
    if s.stype = .Function then outerPhase name rest
    else lookupOuterV name rest

/-- The marking loop of `AnnotationGenerator::lookup_name` after the
first function boundary has been passed: the first scope containing the
name gets the `Boxed` classification, function scopes on the way get the
name added to their closure sets. -/
def markOuter (store : Store) (name : String) : List Scope → Store
  | [] => store
  | s :: rest =>
    if (lookupA s.map name).isSome then storeBlockInsert store s.tok name .Boxed
    else if s.stype = .Function then
      markOuter (storeClosureInsert store s.tok name) name rest
    else markOuter store name rest

/-- The marking loop of `AnnotationGenerator::lookup_name` before the
first function boundary: the boundary function gets the name in its
closure set and switches the phase; a pre-boundary scope containing the
name receives an immediate `Boxed` classification. -/
def markLocal (store : Store) (name : String) : List Scope → Store
  | [] => store
  | s :: rest =>
    if s.stype = .Function then
      markOuter (storeClosureInsert store s.tok name) name rest
    else if (lookupA s.map name).isSome then
      storeBlockInsert store s.tok name .Boxed
    else markLocal store name rest

/-- `AnnotationGenerator::lookup_name`: no marking when the name
resolves locally or is found nowhere beyond the boundary; otherwise run
the marking loop.  The function has no failure channel. -/
def lookupNameV (st : AGSt) (name : String) : AGSt :=
  if lookupLocalV name st.scopes then st
  else if ¬ lookupOuterV name st.scopes then st
  else { st with store := markLocal st.store name st.scopes }

/-- `visit_variable_expr` of the annotation generator: run
`lookup_name` and return the name expression unchanged — always `Ok`. -/
def visitVariableExprV (st : AGSt) (tok : Token) :
    Except String (AGSt × Token) :=
  .ok (lookupNameV st tok.text, tok)

end VAG

/-! ## Proof-support definitions -/

/-- The shape of a scope stack: kinds and identifying tokens, without
the definedness maps. -/
def namesShape (l : List Scope) : List (ScopeType × Token) :=
  l.map (fun s => (s.stype, s.tok))

namespace SLC

/-- Reachable-state invariant of the syntax-level checker: every active
scope has its entry in the variable-type table, every active function
has its closure-set entry, the current-function stack mirrors the
function scopes of the name stack, and the current-block stack extends
the name stack's tokens. -/
def Inv (st : St) : Prop :=
  (∀ s ∈ st.names, (lookupA st.variableTypes s.tok).isSome) ∧
  (∀ t ∈ st.currentFunction, (lookupA st.closedNames t).isSome) ∧
  st.currentFunction =
    (st.names.filter (fun s => s.stype == ScopeType.Function)).map Scope.tok ∧
  (∃ extra, st.currentBlock = st.names.map Scope.tok ++ extra)

/-- Soundness contract of one visit step: success preserves the
invariant and restores the scope stacks; failure is never a panic, and
is a name error whenever the walked fragment uses only accepted
operators. -/
def VisitOK (st : St) (r : Except CheckError St) (ops : Bool) : Prop :=
  match r with
  | .ok st' =>
      Inv st' ∧ namesShape st'.names = namesShape st.names ∧
      st'.currentBlock = st.currentBlock ∧
      st'.currentFunction = st.currentFunction
  | .error e => e ≠ .panicked ∧ (ops = true → e.isNameError = true)

end SLC

/-! # Theorems -/

/-! ## Association-list lemmas -/

theorem lookupA_imInsert_self {α β : Type} [BEq α] [LawfulBEq α]
    (m : List (α × β)) (k : α) (v : β) :
    lookupA (imInsert m k v) k = some v := by
  induction m with
  | nil => simp [imInsert, lookupA]
  | cons kv rest ih =>
      obtain ⟨k', v'⟩ := kv
      by_cases h : k' = k
      · subst h; simp [imInsert, lookupA]
      · simp [imInsert, lookupA, h, ih]

theorem lookupA_imInsert_ne {α β : Type} [BEq α] [LawfulBEq α]
    (m : List (α × β)) (k k' : α) (v : β) (h : k' ≠ k) :
    lookupA (imInsert m k v) k' = lookupA m k' := by
  induction m with
  | nil => simp [imInsert, lookupA, Ne.symm h]
  | cons kv rest ih =>
      obtain ⟨k0, v0⟩ := kv
      by_cases h0 : k0 = k
      · subst h0; simp [imInsert, lookupA, Ne.symm h]
      · simp [imInsert, lookupA, h0, ih]

theorem lookupA_imInsert_isSome {α β : Type} [BEq α] [LawfulBEq α]
    (m : List (α × β)) (k k' : α) (v : β)
    (h : (lookupA m k').isSome) :
    (lookupA (imInsert m k v) k').isSome := by
  by_cases hk : k' = k
  · subst hk; simp [lookupA_imInsert_self]
  · rw [lookupA_imInsert_ne m k k' v hk]; exact h

theorem updA_eq_none_iff {α β : Type} [BEq α] [LawfulBEq α]
    (m : List (α × β)) (k : α) (f : β → β) :
    updA m k f = none ↔ lookupA m k = none := by
  induction m with
  | nil => simp [updA, lookupA]
  | cons kv rest ih =>
      obtain ⟨k0, v0⟩ := kv
      by_cases h0 : k0 = k
      · subst h0; simp [updA, lookupA]
      · simp [updA, lookupA, h0, ih]

theorem updA_self {α β : Type} [BEq α] [LawfulBEq α]
    {m m' : List (α × β)} {k : α} {f : β → β}
    (h : updA m k f = some m') :
    ∃ v, lookupA m k = some v ∧ lookupA m' k = some (f v) := by
  induction m generalizing m' with
  | nil => simp [updA] at h
  | cons kv rest ih =>
      obtain ⟨k0, v0⟩ := kv
      by_cases h0 : k0 = k
      · subst h0
        simp [updA] at h
        subst h
        simp [lookupA]
      · simp [updA, h0] at h
        obtain ⟨m0, hm0, hmm⟩ := h
        obtain ⟨v, hv, hv'⟩ := ih hm0
        subst hmm
        simp [lookupA, h0, hv, hv']

theorem updA_ne {α β : Type} [BEq α] [LawfulBEq α]
    {m m' : List (α × β)} {k : α} {f : β → β}
    (h : updA m k f = some m') (k' : α) (hk : k' ≠ k) :
    lookupA m' k' = lookupA m k' := by
  induction m generalizing m' with
  | nil => simp [updA] at h
  | cons kv rest ih =>
      obtain ⟨k0, v0⟩ := kv
      by_cases h0 : k0 = k
      · subst h0
        simp [updA] at h
        subst h
        simp [lookupA, Ne.symm hk]
      · simp [updA, h0] at h
        obtain ⟨m0, hm0, hmm⟩ := h
        subst hmm
        by_cases h1 : k0 = k'
        · subst h1; simp [lookupA]
        · simp [lookupA, h1, ih hm0]

theorem updA_isSome {α β : Type} [BEq α] [LawfulBEq α]
    {m m' : List (α × β)} {k : α} {f : β → β}
    (h : updA m k f = some m') (k' : α) :
    (lookupA m' k').isSome ↔ (lookupA m k').isSome := by
  by_cases hk : k' = k
  · subst hk
    obtain ⟨v, hv, hv'⟩ := updA_self h
    simp [hv, hv']
  · rw [updA_ne h k' hk]

theorem mem_isInsert {α : Type} [BEq α] [LawfulBEq α] (l : List α) (a b : α) :
    a ∈ isInsert l b ↔ a ∈ l ∨ a = b := by
  by_cases h : b ∈ l
  · rw [isInsert, if_pos (show l.contains b = true from List.elem_iff.mpr h)]
    constructor
    · exact Or.inl
    · rintro (ha | rfl)
      · exact ha
      · exact h
  · rw [isInsert, if_neg (show ¬ l.contains b = true from by
      simpa [List.elem_iff] using h)]
    simp

theorem mem_isInsert_self {α : Type} [BEq α] [LawfulBEq α] (l : List α) (a : α) :
    a ∈ isInsert l a := by
  simp [mem_isInsert]

theorem mem_isInsert_of_mem {α : Type} [BEq α] [LawfulBEq α]
    {l : List α} {a : α} (b : α) (h : a ∈ l) :
    a ∈ isInsert l b := by
  simp [mem_isInsert, h]

/-! ## Type-algebra lemmas -/

theorem Ty.beqList_refl_of (ts : List Ty)
    (ih : ∀ t ∈ ts, Ty.beq t t = true) :
    Ty.beqList ts ts = true := by
  induction ts with
  | nil => simp [Ty.beqList]
  | cons t rest iht =>
      simp [Ty.beqList]
      exact ⟨ih t (by simp), iht (fun x hx => ih x (by simp [hx]))⟩

theorem Ty.beq_refl (a : Ty) : Ty.beq a a = true := by
  have main : ∀ (n : Nat) (a : Ty), sizeOf a ≤ n → Ty.beq a a = true := by
    intro n
    induction n with
    | zero =>
        intro a h
        exfalso
        cases a <;> simp at h
    | succ n ih =>
        intro a h
        cases a with
        | union ts =>
            simp only [Ty.beq]
            apply Ty.beqList_refl_of
            intro t ht
            apply ih
            have := List.sizeOf_lt_of_mem ht
            simp at h
            omega
        | callable xs v r =>
            simp only [Ty.beq, Bool.and_eq_true]
            simp at h
            refine ⟨⟨Ty.beqList_refl_of xs ?_, ?_⟩, ?_⟩
            · intro t ht
              apply ih
              have := List.sizeOf_lt_of_mem ht
              omega
            · cases v with
              | none => simp [Ty.beqOpt]
              | some t =>
                  simp only [Ty.beqOpt]
                  apply ih
                  simp at h
                  omega
            · apply ih; omega
        | structDescriptor nm => simp [Ty.beq]
        | unspecified => simp [Ty.beq]
        | nothing => simp [Ty.beq]
        | bool => simp [Ty.beq]
        | int => simp [Ty.beq]
        | float => simp [Ty.beq]
        | string => simp [Ty.beq]
  exact main (sizeOf a) a le_rfl

theorem buildUnion_self (a : Ty) : buildUnion a a = a := by
  have h : (a == a) = true := Ty.beq_refl a
  simp [buildUnion, h]

/-! ## Claim C2 -/

/-- C2, counterexample: a binary expression with an `Unspecified` left
operand and operator `==` type-checks to `Bool`, not to `Unspecified`
as the claim demands for every operator including `==`. -/
theorem c2_counterexample :
    binaryRule ⟨.CompareEquals, 0, 0, ""⟩ .unspecified .int = .ok .bool ∧
      Ty.bool ≠ Ty.unspecified :=
  ⟨rfl, fun h => Ty.noConfusion h⟩

/-- C2, amended: every binary or unary expression with an `Unspecified`
operand type-checks successfully; the result is `Unspecified`, except
that `==` and `!=` yield `Bool` and unary `not` yields `Bool`. -/
theorem c2_gradual_escape :
    (∀ (op : Token) (l r : Ty), l = .unspecified ∨ r = .unspecified →
        binaryRule op l r =
          .ok (if op.kind = .CompareEquals ∨ op.kind = .CompareNotEquals
               then .bool else .unspecified)) ∧
    (∀ op : Token,
        unaryRule op .unspecified =
          .ok (if op.kind = .NotK then .bool else .unspecified)) := by
  constructor
  · intro op l r h
    by_cases hk : op.kind = .CompareEquals ∨ op.kind = .CompareNotEquals
    · simp [binaryRule, hk]
    · rcases h with rfl | rfl
      · simp [binaryRule, hk, Ty.isUnspecified]
      · cases hl : l.isUnspecified <;>
          simp [binaryRule, hk, Ty.isUnspecified, hl]
  · intro op
    by_cases hk : op.kind = .NotK <;> simp [unaryRule, hk, Ty.isUnspecified]

/-- C2, witness: the amended theorem at `Unspecified + Int` and at unary
minus on `Unspecified`. -/
theorem c2_witness :
    binaryRule ⟨.Plus, 0, 0, ""⟩ .unspecified .int = .ok .unspecified ∧
      unaryRule ⟨.Minus, 0, 0, ""⟩ .unspecified = .ok .unspecified := by
  constructor
  · simpa using c2_gradual_escape.1 ⟨.Plus, 0, 0, ""⟩ .unspecified .int (Or.inl rfl)
  · simpa using c2_gradual_escape.2 ⟨.Minus, 0, 0, ""⟩

/-! ## Claim C5 -/

/-- C5, counterexample: `mod` applied to an `Unspecified` (hence
non-`Int`) operand succeeds with `Unspecified` instead of failing with
a type error. -/
theorem c5_counterexample :
    binaryRule ⟨.Mod, 0, 0, ""⟩ .unspecified .int = .ok .unspecified := rfl

/-- C5, amended: `Int op Int` is `Int` for `+ - * / ^ mod`; `+ - * / ^`
on `Int`/`Float` mixes is `Float`; `+` on two strings is `String`; and
`mod` on operands that are not both `Int` fails with a type error
(`UnspecifiedBinary`) unless an operand is `Unspecified`, in which case
the gradual escape yields `Unspecified`. -/
theorem c5_numeric_promotion :
    (∀ op : Token, op.kind = .Plus ∨ op.kind = .Minus ∨ op.kind = .Star ∨
        op.kind = .Slash ∨ op.kind = .Power ∨ op.kind = .Mod →
        binaryRule op .int .int = .ok .int) ∧
    (∀ op : Token, op.kind = .Plus ∨ op.kind = .Minus ∨ op.kind = .Star ∨
        op.kind = .Slash ∨ op.kind = .Power →
        binaryRule op .int .float = .ok .float ∧
        binaryRule op .float .int = .ok .float ∧
        binaryRule op .float .float = .ok .float) ∧
    (∀ op : Token, op.kind = .Plus → binaryRule op .string .string = .ok .string) ∧
    (∀ (op : Token) (l r : Ty), op.kind = .Mod → ¬(l = .int ∧ r = .int) →
        l ≠ .unspecified → r ≠ .unspecified →
        binaryRule op l r = .error (.err (.unspecifiedBinary l op r))) := by
  refine ⟨?_, ?_, ?_, ?_⟩
  · intro op h
    rcases h with h | h | h | h | h | h <;>
      simp [binaryRule, h, numberUpcastBinaryOp, Ty.isUnspecified,
        Ty.isIntOrFloat, Ty.isInt, Ty.isBool, Ty.isString]
  · intro op h
    rcases h with h | h | h | h | h <;>
      refine ⟨?_, ?_, ?_⟩ <;>
      simp [binaryRule, h, numberUpcastBinaryOp, Ty.isUnspecified,
        Ty.isIntOrFloat, Ty.isInt, Ty.isBool, Ty.isString]
  · intro op h
    simp [binaryRule, h, Ty.isUnspecified, Ty.isString]
  · intro op l r hk hnot hl hr
    cases l <;> cases r <;>
      simp_all [binaryRule, Ty.isUnspecified, Ty.isInt, Ty.isBool,
        Ty.isString, Ty.isIntOrFloat]

/-- C5, witness: the amended theorem at `Int + Int`, `Int * Float`,
string concatenation, and `Float mod Int`. -/
theorem c5_witness :
    binaryRule ⟨.Plus, 0, 0, ""⟩ .int .int = .ok .int ∧
    binaryRule ⟨.Star, 0, 0, ""⟩ .int .float = .ok .float ∧
    binaryRule ⟨.Plus, 0, 0, ""⟩ .string .string = .ok .string ∧
    binaryRule ⟨.Mod, 0, 0, ""⟩ .float .int =
      .error (.err (.unspecifiedBinary .float ⟨.Mod, 0, 0, ""⟩ .int)) := by
  refine ⟨c5_numeric_promotion.1 _ (by simp), ?_, ?_, ?_⟩
  · exact (c5_numeric_promotion.2.1 _ (by simp)).1
  · exact c5_numeric_promotion.2.2.1 _ rfl
  · exact c5_numeric_promotion.2.2.2 _ _ _ rfl
      (by rintro ⟨h, -⟩; exact Ty.noConfusion h)
      (fun h => Ty.noConfusion h) (fun h => Ty.noConfusion h)

/-! ## Claim C10 -/

/-- C10, counterexample: unary `not` on an `Unspecified` operand yields
`Bool`, not `Unspecified` as the claim's final clause states for any
operator. -/
theorem c10_counterexample :
    unaryRule ⟨.NotK, 0, 0, ""⟩ .unspecified = .ok .bool ∧
      Ty.bool ≠ Ty.unspecified :=
  ⟨rfl, fun h => Ty.noConfusion h⟩

/-- C10, amended: a unary expression whose operator is not `not` and
whose operand is not `Unspecified` makes the checker panic
(`unimplemented!`); `not` yields `Bool` for any operand; any operator
other than `not` on an `Unspecified` operand yields `Unspecified`. -/
theorem c10_unary_panic :
    (∀ (op : Token) (t : Ty), op.kind ≠ .NotK → t ≠ .unspecified →
        unaryRule op t = .error .panicked) ∧
    (∀ (op : Token) (t : Ty), op.kind = .NotK → unaryRule op t = .ok .bool) ∧
    (∀ op : Token, op.kind ≠ .NotK →
        unaryRule op .unspecified = .ok .unspecified) := by
  refine ⟨?_, ?_, ?_⟩
  · intro op t hk ht
    have h : t.isUnspecified = false := by
      cases t <;> simp_all [Ty.isUnspecified]
    simp [unaryRule, hk, h]
  · intro op t hk
    simp [unaryRule, hk]
  · intro op hk
    simp [unaryRule, hk, Ty.isUnspecified]

/-- C10, witness: the amended theorem at unary minus on `Int`, `not` on
`String`, and unary minus on `Unspecified`. -/
theorem c10_witness :
    unaryRule ⟨.Minus, 0, 0, ""⟩ .int = .error .panicked ∧
    unaryRule ⟨.NotK, 0, 0, ""⟩ .string = .ok .bool ∧
    unaryRule ⟨.Minus, 0, 0, ""⟩ .unspecified = .ok .unspecified :=
  ⟨c10_unary_panic.1 _ _ (by decide) (fun h => Ty.noConfusion h),
   c10_unary_panic.2.1 _ _ rfl,
   c10_unary_panic.2.2 _ (by decide)⟩

/-! ## Claim C9 -/

/-- C9: the checker's block visit on a block with zero statements
panics (the `split_last().unwrap()` of `visit_block`), for every checker
state — it neither returns a type nor a `TypeError`. -/
theorem c9_empty_block_panics (st : TCState) (t1 t2 : Token) :
    visitExpr st (.blockE t1 t2 []) = .error .panicked := by
  simp [visitExpr, performBlockPredef, visitBlockStmts, Bind.bind, Except.bind]

/-! ## Claim C6 -/

theorem checkArgs_ok_iff (es ps : List Ty) :
    checkArgs es ps = .ok () ↔ ∀ pr ∈ es.zip ps, tyLE pr.2 pr.1 = true := by
  induction es generalizing ps with
  | nil => simp [checkArgs]
  | cons e es ih =>
      cases ps with
      | nil => simp [checkArgs]
      | cons p ps =>
          by_cases h : tyLE p e = true
          · simp [checkArgs, checkExpectation, h, ih, Bind.bind, Except.bind]
          · simp [checkArgs, checkExpectation, h, Bind.bind, Except.bind]

theorem checkArgs_error_shape (es ps : List Ty) (e : TcFail)
    (h : checkArgs es ps = .error e) :
    ∃ exp got, e = .err (.typeMismatch exp got) := by
  induction es generalizing ps with
  | nil => simp [checkArgs] at h
  | cons e0 es ih =>
      cases ps with
      | nil => simp [checkArgs] at h
      | cons p ps =>
          by_cases hle : tyLE p e0 = true
          · simp [checkArgs, checkExpectation, hle, Bind.bind, Except.bind] at h
            exact ih ps h
          · simp [checkArgs, checkExpectation, hle, Bind.bind, Except.bind] at h
            exact ⟨e0, p, h.symm⟩

/-- C6: calling a `Callable` of fixed arity `n` without vararg with any
argument count other than `n` fails with `ArityMismatch`; with a vararg
present, any argument count at least the fixed parameter count passes
the arity gate (no `ArityMismatch` is possible), and the call checks
each fixed argument against its parameter type and each extra argument
against the vararg type. -/
theorem c6_arity :
    (∀ (cargs : List Ty) (ret : Ty) (argTs : List Ty),
        argTs.length ≠ cargs.length →
        callRule (.callable cargs none ret) argTs =
          .error (.err (.arityMismatch (.exact cargs.length) argTs.length))) ∧
    (∀ (cargs : List Ty) (v ret : Ty) (argTs : List Ty),
        cargs.length ≤ argTs.length →
        (∀ (ar : ArityT) (n : Nat),
            callRule (.callable cargs (some v) ret) argTs ≠
              .error (.err (.arityMismatch ar n))) ∧
        (callRule (.callable cargs (some v) ret) argTs = .ok ret ↔
          ∀ (i : Nat) (h : i < argTs.length),
            tyLE argTs[i]
              (if h2 : i < cargs.length then cargs[i] else v) = true)) := by
  constructor
  · intro cargs ret argTs hne
    simp [callRule, Ty.isUnspecified, Ty.getArity, ArityT.accepts,
      Ne.symm hne]
  · intro cargs v ret argTs hle
    have hcall : callRule (.callable cargs (some v) ret) argTs =
        (checkArgs (cargs ++ List.replicate (argTs.length - cargs.length) v)
          argTs).map (fun _ => ret) := by
      simp [callRule, Ty.isUnspecified, Ty.getArity, ArityT.accepts, hle]
    set R := cargs ++ List.replicate (argTs.length - cargs.length) v with hR
    have hRlen : R.length = argTs.length := by
      simp [hR]
      omega
    constructor
    · intro ar n
      rw [hcall]
      cases h : checkArgs R argTs with
      | ok u =>
          cases u
          simp [Except.map]
      | error e =>
          obtain ⟨exp, got, rfl⟩ := checkArgs_error_shape R argTs e h
          simp [Except.map]
    · rw [hcall]
      have hmap : ∀ (r : Except TcFail Unit),
          (r.map (fun _ => ret) = Except.ok ret) ↔ r = .ok () := by
        intro r
        cases r with
        | ok u => cases u; simp [Except.map]
        | error e => simp [Except.map]
      rw [hmap, checkArgs_ok_iff]
      have hzlen : (R.zip argTs).length = argTs.length := by
        simp [hRlen]
      have hgetR : ∀ (i : Nat) (h : i < R.length),
          R[i] = if h2 : i < cargs.length then cargs[i] else v := by
        intro i h
        by_cases h2 : i < cargs.length
        · simp only [hR]
          rw [dif_pos h2]
          exact List.getElem_append_left h2
        · have hRl : i < R.length := h
          rw [hRlen] at hRl
          simp only [hR]
          rw [dif_neg h2]
          rw [List.getElem_append_right (by omega)]
          exact List.getElem_replicate ..
      constructor
      · intro hall i hi
        have hiz : i < (R.zip argTs).length := by omega
        have hiR : i < R.length := by rw [hRlen]; exact hi
        have hmem : (R.zip argTs)[i] ∈ R.zip argTs :=
          List.getElem_mem _
        have hz : (R.zip argTs)[i] = (R[i], argTs[i]) := List.getElem_zip ..
        have := hall _ hmem
        rw [hz] at this
        simpa [hgetR i hiR] using this
      · intro hix pr hpr
        obtain ⟨i, hi, rfl⟩ := List.mem_iff_getElem.mp hpr
        have hiR : i < R.length := by
          rw [List.length_zip] at hi
          omega
        have hiA : i < argTs.length := by
          rw [List.length_zip] at hi
          omega
        have hz : (R.zip argTs)[i] = (R[i], argTs[i]) := List.getElem_zip ..
        rw [hz]
        simpa [hgetR i hiR] using hix i hiA

/-- C6, witness: arity mismatch at counts `n-1` and `n+1` for a fixed
unary callable, and no arity mismatch for a vararg callable applied to
two arguments beyond its fixed parameter. -/
theorem c6_witness :
    callRule (.callable [.int] none .string) [] =
      .error (.err (.arityMismatch (.exact 1) 0)) ∧
    callRule (.callable [.int] none .string) [.int, .int] =
      .error (.err (.arityMismatch (.exact 1) 2)) ∧
    (∀ (ar : ArityT) (n : Nat),
        callRule (.callable [.int] (some .bool) .string) [.int, .bool, .bool] ≠
          .error (.err (.arityMismatch ar n))) :=
  ⟨c6_arity.1 [.int] .string [] (by decide),
   c6_arity.1 [.int] .string [.int, .int] (by decide),
   (c6_arity.2 [.int] .bool .string [.int, .bool, .bool] (by decide)).1⟩

/-! ## Claim C8 -/

/-- C8: for conditional expressions, a condition whose type does not
check against `Bool` fails with `TypeMismatch`; otherwise the
expression's type is the union of the then-branch and else-branch
types, with `Nothing` standing in for an absent else branch; and the
union of a type with itself is that type, so identical branch types
yield exactly that type and not a union wrapper. -/
theorem c8_cond_union :
    (∀ (st : TCState) (c tb : TExpr) (eb : Option TExpr) (st1 : TCState)
        (ct : Ty),
        visitExpr st c = .ok (st1, ct) → tyLE ct .bool = false →
        visitExpr st (.cond c tb eb) = .error (.err (.typeMismatch .bool ct))) ∧
    (∀ (st : TCState) (c tb : TExpr) (eb : Option TExpr)
        (st1 st2 st3 : TCState) (ct tt et : Ty),
        visitExpr st c = .ok (st1, ct) → tyLE ct .bool = true →
        visitExpr st1 tb = .ok (st2, tt) → visitElse st2 eb = .ok (st3, et) →
        visitExpr st (.cond c tb eb) =
          .ok (addExprTy st3 (.cond c tb eb) (buildUnion tt et),
            buildUnion tt et)) ∧
    (∀ st : TCState, visitElse st none = .ok (st, .nothing)) ∧
    (∀ a : Ty, buildUnion a a = a) := by
  refine ⟨?_, ?_, ?_, buildUnion_self⟩
  · intro st c tb eb st1 ct h1 h2
    simp only [visitExpr]
    rw [h1]
    simp [Bind.bind, Except.bind, checkExpectation, h2]
  · intro st c tb eb st1 st2 st3 ct tt et h1 h2 h3 h4
    simp only [visitExpr]
    rw [h1]
    simp only [Bind.bind, Except.bind, checkExpectation, h2, if_pos]
    rw [h3]
    simp only []
    rw [h4]
  · intro st
    simp [visitElse]

/-- C8, witness: a conditional with a boolean condition and two integer
branches types as exactly `Int`. -/
theorem c8_witness :
    visitExpr (⟨fun _ => none, []⟩ : TCState)
        (.cond (.boolLit ⟨.NameTok, 0, 0, "t"⟩)
          (.numberLit ⟨.NumberTok, 0, 1, "1"⟩)
          (some (.numberLit ⟨.NumberTok, 0, 2, "2"⟩))) =
      .ok
        (addExprTy
          (addExprTy
            (addExprTy
              (addExprTy (⟨fun _ => none, []⟩ : TCState)
                (.boolLit ⟨.NameTok, 0, 0, "t"⟩) .bool)
              (.numberLit ⟨.NumberTok, 0, 1, "1"⟩) .int)
            (.numberLit ⟨.NumberTok, 0, 2, "2"⟩) .int)
          (.cond (.boolLit ⟨.NameTok, 0, 0, "t"⟩)
            (.numberLit ⟨.NumberTok, 0, 1, "1"⟩)
            (some (.numberLit ⟨.NumberTok, 0, 2, "2"⟩)))
          (buildUnion .int .int),
        buildUnion .int .int) := by
  have h1 : visitExpr (⟨fun _ => none, []⟩ : TCState)
      (.boolLit ⟨.NameTok, 0, 0, "t"⟩) =
      .ok (addExprTy (⟨fun _ => none, []⟩ : TCState)
        (.boolLit ⟨.NameTok, 0, 0, "t"⟩) .bool, .bool) := by
    simp [visitExpr]
  have h2 : tyLE .bool .bool = true := by
    simp only [tyLE]
    rfl
  have h3 : visitExpr (addExprTy (⟨fun _ => none, []⟩ : TCState)
        (.boolLit ⟨.NameTok, 0, 0, "t"⟩) .bool)
      (.numberLit ⟨.NumberTok, 0, 1, "1"⟩) =
      .ok (addExprTy (addExprTy (⟨fun _ => none, []⟩ : TCState)
          (.boolLit ⟨.NameTok, 0, 0, "t"⟩) .bool)
        (.numberLit ⟨.NumberTok, 0, 1, "1"⟩) .int, .int) := by
    simp [visitExpr]
  have h4 : visitElse (addExprTy (addExprTy (⟨fun _ => none, []⟩ : TCState)
          (.boolLit ⟨.NameTok, 0, 0, "t"⟩) .bool)
        (.numberLit ⟨.NumberTok, 0, 1, "1"⟩) .int)
      (some (.numberLit ⟨.NumberTok, 0, 2, "2"⟩)) =
      .ok (addExprTy (addExprTy (addExprTy (⟨fun _ => none, []⟩ : TCState)
            (.boolLit ⟨.NameTok, 0, 0, "t"⟩) .bool)
          (.numberLit ⟨.NumberTok, 0, 1, "1"⟩) .int)
        (.numberLit ⟨.NumberTok, 0, 2, "2"⟩) .int, .int) := by
    simp [visitElse, visitExpr]
  exact c8_cond_union.2.1 _ _ _ _ _ _ _ _ _ _ h1 h2 h3 h4

/-! ## Syntax-level checker: lookup lemmas -/

namespace SLC

theorem goLocal_append (st : St) (name : String) (L rest : List Scope)
    (hL : ∀ s ∈ L, s.stype = .Block ∧ lookupA s.map name = none) :
    goLocal st name (L ++ rest) = goLocal st name rest := by
  induction L with
  | nil => rfl
  | cons s L ih =>
      obtain ⟨hty, hmap⟩ := hL s (by simp)
      rw [List.cons_append, goLocal, hmap, hty]
      exact ih (fun x hx => hL x (by simp [hx]))

theorem goLocal_function (st : St) (name : String) (s : Scope)
    (rest : List Scope) (hty : s.stype = .Function)
    (hmap : lookupA s.map name = none) :
    goLocal st name (s :: rest) = goOuter st name [] rest := by
  rw [goLocal, hmap, hty]

theorem goOuter_none (st : St) (name : String) (l : List Scope)
    (h : ∀ s ∈ l, lookupA s.map name = none) :
    ∀ deps, goOuter st name deps l = .error .noSuchVariable := by
  induction l with
  | nil => intro deps; rfl
  | cons s l ih =>
      intro deps
      have hs := h s (by simp)
      have hrest : ∀ x ∈ l, lookupA x.map name = none :=
        fun x hx => h x (by simp [hx])
      by_cases hty : s.stype = .Function
      · rw [goOuter, hs]
        simp only [Option.isSome_none, Bool.false_eq_true, if_false, hty,
          if_true]
        exact ih hrest _
      · rw [goOuter, hs]
        simp only [Option.isSome_none, Bool.false_eq_true, if_false, hty]
        exact ih hrest _

theorem goLocal_none (st : St) (name : String) (l : List Scope)
    (h : ∀ s ∈ l, lookupA s.map name = none) :
    goLocal st name l = .error .noSuchVariable := by
  induction l with
  | nil => rfl
  | cons s l ih =>
      have hs := h s (by simp)
      rw [goLocal, hs]
      have hrest : ∀ x ∈ l, lookupA x.map name = none :=
        fun x hx => h x (by simp [hx])
      cases hty : s.stype
      · exact ih hrest
      · exact goOuter_none st name l hrest []

theorem depsFold_isSome (cn : List (Token × List String)) (name : String)
    (deps : List Token)
    (h : ∀ d ∈ deps, (lookupA cn d).isSome) :
    ∃ cn', depsFold cn name deps = some cn' := by
  induction deps generalizing cn with
  | nil => exact ⟨cn, rfl⟩
  | cons d ds ih =>
      have hd := h d (by simp)
      have hne : updA cn d (fun l => isInsert l name) ≠ none := by
        rw [Ne, updA_eq_none_iff]
        intro hk
        rw [hk] at hd
        simp at hd
      obtain ⟨cn1, hcn1⟩ := Option.ne_none_iff_exists'.mp hne
      have hdom : ∀ d' ∈ ds, (lookupA cn1 d').isSome := by
        intro d' hd'
        rw [updA_isSome hcn1]
        exact h d' (by simp [hd'])
      obtain ⟨cn', hcn'⟩ := ih cn1 hdom
      refine ⟨cn', ?_⟩
      rw [depsFold, hcn1]
      exact hcn'

theorem depsFold_preserve {cn cn' : List (Token × List String)}
    {name : String} {deps : List Token}
    (h : depsFold cn name deps = some cn') (k : Token) (l : List String)
    (hk : lookupA cn k = some l) (hn : name ∈ l) :
    ∃ l', lookupA cn' k = some l' ∧ name ∈ l' := by
  induction deps generalizing cn l with
  | nil =>
      rw [depsFold] at h
      cases h
      exact ⟨l, hk, hn⟩
  | cons d ds ih =>
      rw [depsFold] at h
      cases hcn1 : updA cn d (fun l => isInsert l name) with
      | none => rw [hcn1] at h; simp at h
      | some cn1 =>
          rw [hcn1] at h
          simp only [Option.some_bind] at h
          by_cases hkd : k = d
          · subst hkd
            obtain ⟨v, hv, hv'⟩ := updA_self hcn1
            rw [hk] at hv
            cases hv
            exact ih h (isInsert l name) hv' (mem_isInsert_of_mem _ hn)
          · have := updA_ne hcn1 k hkd
            exact ih h l (this.trans hk) hn

theorem depsFold_targets {cn cn' : List (Token × List String)}
    {name : String} {deps : List Token}
    (h : depsFold cn name deps = some cn') :
    ∀ d ∈ deps, ∃ l, lookupA cn' d = some l ∧ name ∈ l := by
  induction deps generalizing cn with
  | nil => simp
  | cons d ds ih =>
      rw [depsFold] at h
      cases hcn1 : updA cn d (fun l => isInsert l name) with
      | none => rw [hcn1] at h; simp at h
      | some cn1 =>
          rw [hcn1] at h
          simp only [Option.some_bind] at h
          intro d' hd'
          rcases List.mem_cons.mp hd' with rfl | hd'
          · obtain ⟨v, _, hv'⟩ := updA_self hcn1
            obtain ⟨l', hl', hn'⟩ :=
              depsFold_preserve h d' (isInsert v name) hv'
                (mem_isInsert_self ..)
            exact ⟨l', hl', hn'⟩
          · exact ih h d' hd'

theorem goOuter_capture (name : String) (M : List Scope) (D : Scope)
    (R : List Scope) (st : St) (deps : List Token) (cf : Token)
    (hM : ∀ s ∈ M, lookupA s.map name = none)
    (hD : (lookupA D.map name).isSome)
    (hcf : st.currentFunction.head? = some cf)
    (hvt : (lookupA st.variableTypes D.tok).isSome)
    (hcn : (lookupA st.closedNames cf).isSome)
    (hdeps : ∀ t ∈ deps, (lookupA st.closedNames t).isSome)
    (hMfn : ∀ s ∈ M, s.stype = .Function →
      (lookupA st.closedNames s.tok).isSome) :
    ∃ st', goOuter st name deps (M ++ D :: R) = .ok st' ∧
      st'.names = st.names ∧
      st'.currentBlock = st.currentBlock ∧
      st'.currentFunction = st.currentFunction ∧
      (∃ m, lookupA st'.variableTypes D.tok = some m ∧
        lookupA m name = some .Boxed) ∧
      (∃ l, lookupA st'.closedNames cf = some l ∧ name ∈ l) ∧
      (∀ t ∈ deps, ∃ l, lookupA st'.closedNames t = some l ∧ name ∈ l) ∧
      (∀ s ∈ M, s.stype = .Function →
        ∃ l, lookupA st'.closedNames s.tok = some l ∧ name ∈ l) := by
  induction M generalizing deps with
  | nil =>
      have hvt' : updA st.variableTypes D.tok
          (fun m => imInsert m name .Boxed) ≠ none := by
        rw [Ne, updA_eq_none_iff]
        intro hk; rw [hk] at hvt; simp at hvt
      obtain ⟨vt, hvtEq⟩ := Option.ne_none_iff_exists'.mp hvt'
      have hcn' : updA st.closedNames cf (fun l => isInsert l name) ≠ none := by
        rw [Ne, updA_eq_none_iff]
        intro hk; rw [hk] at hcn; simp at hcn
      obtain ⟨cn1, hcn1⟩ := Option.ne_none_iff_exists'.mp hcn'
      have hdom : ∀ d ∈ deps, (lookupA cn1 d).isSome := by
        intro d hd
        rw [updA_isSome hcn1]
        exact hdeps d hd
      obtain ⟨cn2, hcn2⟩ := depsFold_isSome cn1 name deps hdom
      refine ⟨{ st with variableTypes := vt, closedNames := cn2 }, ?_, rfl, rfl,
        rfl, ?_, ?_, ?_, by simp⟩
      · rw [List.nil_append]
        simp only [goOuter, hD, if_true, hvtEq, hcf, hcn1, hcn2]
      · obtain ⟨m, hm, hm'⟩ := updA_self hvtEq
        exact ⟨imInsert m name .Boxed, hm', lookupA_imInsert_self ..⟩
      · obtain ⟨v, _, hv'⟩ := updA_self hcn1
        exact depsFold_preserve hcn2 cf (isInsert v name) hv'
          (mem_isInsert_self ..)
      · exact depsFold_targets hcn2
  | cons s M' ih =>
      have hs := hM s (by simp)
      have hM' : ∀ x ∈ M', lookupA x.map name = none :=
        fun x hx => hM x (by simp [hx])
      have hMfn' : ∀ x ∈ M', x.stype = .Function →
          (lookupA st.closedNames x.tok).isSome :=
        fun x hx => hMfn x (by simp [hx])
      rw [List.cons_append, goOuter, hs]
      simp only [Option.isSome_none, Bool.false_eq_true, if_false]
      cases hty : s.stype with
      | Block =>
          simp only [reduceCtorEq, if_false]
          obtain ⟨st', h1, h2, h3, h4, h5, h6, h7, h8⟩ :=
            ih deps hM' hdeps hMfn'
          refine ⟨st', h1, h2, h3, h4, h5, h6, h7, ?_⟩
          intro x hx hxf
          rcases List.mem_cons.mp hx with rfl | hx
          · rw [hty] at hxf; cases hxf
          · exact h8 x hx hxf
      | Function =>
          simp only [if_true]
          have hdeps' : ∀ t ∈ isInsert deps s.tok,
              (lookupA st.closedNames t).isSome := by
            intro t ht
            rcases (mem_isInsert deps t s.tok).mp ht with ht | rfl
            · exact hdeps t ht
            · exact hMfn s (by simp) hty
          obtain ⟨st', h1, h2, h3, h4, h5, h6, h7, h8⟩ :=
            ih (isInsert deps s.tok) hM' hdeps' hMfn'
          refine ⟨st', h1, h2, h3, h4, h5, h6, ?_, ?_⟩
          · intro t ht
            exact h7 t (mem_isInsert_of_mem _ ht)
          · intro x hx hxf
            rcases List.mem_cons.mp hx with rfl | hx
            · exact h7 x.tok (mem_isInsert_self ..)
            · exact h8 x hx hxf

end SLC

/-! ## Annotation generator: lookup and marking lemmas -/

namespace VAG

theorem storeBlockInsert_self (store : Store) (tok : Token) (name : String)
    (vt : VariableType) :
    ∃ m, lookupA (storeBlockInsert store tok name vt).blockScopes tok =
      some m ∧ lookupA m name = some vt := by
  refine ⟨imInsert ((lookupA store.blockScopes tok).getD []) name vt, ?_, ?_⟩
  · exact lookupA_imInsert_self ..
  · exact lookupA_imInsert_self ..

theorem storeBlockInsert_closures (store : Store) (tok : Token)
    (name : String) (vt : VariableType) :
    (storeBlockInsert store tok name vt).closureScopes =
      store.closureScopes := rfl

theorem storeClosureInsert_blocks (store : Store) (tok : Token)
    (name : String) :
    (storeClosureInsert store tok name).blockScopes = store.blockScopes := rfl

theorem storeClosureInsert_self (store : Store) (tok : Token)
    (name : String) :
    ∃ l, lookupA (storeClosureInsert store tok name).closureScopes tok =
      some l ∧ name ∈ l := by
  refine ⟨isInsert ((lookupA store.closureScopes tok).getD []) name, ?_, ?_⟩
  · exact lookupA_imInsert_self ..
  · exact mem_isInsert_self ..

theorem storeClosureInsert_preserve (store : Store) (tok : Token)
    (name : String) (k : Token) (l : List String) (x : String)
    (hk : lookupA store.closureScopes k = some l) (hx : x ∈ l) :
    ∃ l', lookupA (storeClosureInsert store tok name).closureScopes k =
      some l' ∧ x ∈ l' := by
  by_cases hkt : k = tok
  · subst hkt
    refine ⟨isInsert ((lookupA store.closureScopes k).getD []) name, ?_, ?_⟩
    · exact lookupA_imInsert_self ..
    · rw [hk]
      exact mem_isInsert_of_mem _ hx
  · refine ⟨l, ?_, hx⟩
    rw [storeClosureInsert]
    simp only
    rw [lookupA_imInsert_ne _ _ _ _ hkt]
    exact hk

theorem markOuter_blockBoxed (name : String) (M : List Scope) (D : Scope)
    (R : List Scope) (store : Store)
    (hM : ∀ s ∈ M, lookupA s.map name = none)
    (hD : (lookupA D.map name).isSome) :
    (∃ m, lookupA (markOuter store name (M ++ D :: R)).blockScopes D.tok =
        some m ∧ lookupA m name = some .Boxed) ∧
    (∀ k l x, lookupA store.closureScopes k = some l → x ∈ l →
      ∃ l', lookupA (markOuter store name (M ++ D :: R)).closureScopes k =
        some l' ∧ x ∈ l') ∧
    (∀ s ∈ M, s.stype = .Function →
      ∃ l, lookupA (markOuter store name (M ++ D :: R)).closureScopes s.tok =
        some l ∧ name ∈ l) := by
  induction M generalizing store with
  | nil =>
      rw [List.nil_append, markOuter, if_pos hD]
      refine ⟨storeBlockInsert_self .., ?_, by simp⟩
      intro k l x hk hx
      rw [storeBlockInsert_closures]
      exact ⟨l, hk, hx⟩
  | cons s M' ih =>
      have hs := hM s (by simp)
      have hM' : ∀ x ∈ M', lookupA x.map name = none :=
        fun x hx => hM x (by simp [hx])
      rw [List.cons_append, markOuter, hs]
      simp only [Option.isSome_none, Bool.false_eq_true, if_false]
      cases hty : s.stype with
      | Block =>
          simp only [reduceCtorEq, if_false]
          obtain ⟨h1, h2, h3⟩ := ih store hM'
          refine ⟨h1, h2, ?_⟩
          intro x hx hxf
          rcases List.mem_cons.mp hx with rfl | hx
          · rw [hty] at hxf; cases hxf
          · exact h3 x hx hxf
      | Function =>
          simp only [if_true]
          obtain ⟨h1, h2, h3⟩ := ih (storeClosureInsert store s.tok name) hM'
          refine ⟨h1, ?_, ?_⟩
          · intro k l x hk hx
            obtain ⟨l1, hl1, hx1⟩ :=
              storeClosureInsert_preserve store s.tok name k l x hk hx
            exact h2 k l1 x hl1 hx1
          · intro x hx hxf
            rcases List.mem_cons.mp hx with rfl | hx
            · obtain ⟨l1, hl1, hn1⟩ := storeClosureInsert_self store x.tok name
              exact h2 x.tok l1 name hl1 hn1
            · exact h3 x hx hxf

theorem markLocal_skip (store : Store) (name : String) (L rest : List Scope)
    (hL : ∀ s ∈ L, s.stype = .Block ∧ lookupA s.map name = none) :
    markLocal store name (L ++ rest) = markLocal store name rest := by
  induction L with
  | nil => rfl
  | cons s L ih =>
      obtain ⟨hty, hmap⟩ := hL s (by simp)
      rw [List.cons_append, markLocal, hmap]
      simp only [hty, reduceCtorEq, if_false, Option.isSome_none,
        Bool.false_eq_true]
      exact ih (fun x hx => hL x (by simp [hx]))

theorem markLocal_function (store : Store) (name : String) (F : Scope)
    (rest : List Scope) (hF : F.stype = .Function) :
    markLocal store name (F :: rest) =
      markOuter (storeClosureInsert store F.tok name) name rest := by
  rw [markLocal]
  simp [hF]

theorem lookupLocalV_skip (name : String) (L rest : List Scope)
    (hL : ∀ s ∈ L, s.stype = .Block ∧ lookupA s.map name = none) :
    lookupLocalV name (L ++ rest) = lookupLocalV name rest := by
  induction L with
  | nil => rfl
  | cons s L ih =>
      obtain ⟨hty, hmap⟩ := hL s (by simp)
      rw [List.cons_append, lookupLocalV, hmap]
      simp only [hty, reduceCtorEq, if_false]
      exact ih (fun x hx => hL x (by simp [hx]))

theorem lookupLocalV_function (name : String) (F : Scope)
    (rest : List Scope) (hF : F.stype = .Function)
    (hmap : lookupA F.map name = none) :
    lookupLocalV name (F :: rest) = false := by
  rw [lookupLocalV, hmap]
  simp [hF]

theorem lookupLocalV_none (name : String) (l : List Scope)
    (h : ∀ s ∈ l, lookupA s.map name = none) :
    lookupLocalV name l = false := by
  induction l with
  | nil => rfl
  | cons s l ih =>
      have hs := h s (by simp)
      rw [lookupLocalV, hs]
      have hrest := fun x hx => h x (List.mem_cons_of_mem _ hx)
      by_cases hty : s.stype = .Function <;> simp [hty, ih hrest]

theorem outerPhase_found (name : String) (M : List Scope) (D : Scope)
    (R : List Scope) (hM : ∀ s ∈ M, lookupA s.map name = none)
    (hD : (lookupA D.map name).isSome) :
    outerPhase name (M ++ D :: R) = true := by
  induction M with
  | nil => rw [List.nil_append, outerPhase, if_pos hD]
  | cons s M' ih =>
      have hs := hM s (by simp)
      rw [List.cons_append, outerPhase, hs]
      simp only [Option.isSome_none, Bool.false_eq_true, if_false]
      exact ih (fun x hx => hM x (by simp [hx]))

theorem outerPhase_none (name : String) (l : List Scope)
    (h : ∀ s ∈ l, lookupA s.map name = none) :
    outerPhase name l = false := by
  induction l with
  | nil => rfl
  | cons s l ih =>
      have hs := h s (by simp)
      rw [outerPhase, hs]
      simp only [Option.isSome_none, Bool.false_eq_true, if_false]
      exact ih (fun x hx => h x (by simp [hx]))

theorem lookupOuterV_skip (name : String) (L rest : List Scope)
    (hL : ∀ s ∈ L, s.stype = .Block) :
    lookupOuterV name (L ++ rest) = lookupOuterV name rest := by
  induction L with
  | nil => rfl
  | cons s L ih =>
      have hty := hL s (by simp)
      rw [List.cons_append, lookupOuterV]
      simp only [hty, reduceCtorEq, if_false]
      exact ih (fun x hx => hL x (by simp [hx]))

theorem lookupOuterV_function (name : String) (F : Scope)
    (rest : List Scope) (hF : F.stype = .Function) :
    lookupOuterV name (F :: rest) = outerPhase name rest := by
  rw [lookupOuterV]
  simp [hF]

theorem lookupOuterV_none (name : String) (l : List Scope)
    (h : ∀ s ∈ l, lookupA s.map name = none) :
    lookupOuterV name l = false := by
  induction l with
  | nil => rfl
  | cons s l ih =>
      have hrest := fun x hx => h x (List.mem_cons_of_mem _ hx)
      by_cases hty : s.stype = .Function
      · rw [lookupOuterV]
        simp only [hty, if_true]
        exact outerPhase_none name l hrest
      · rw [lookupOuterV]
        simp only [hty, if_false]
        exact ih hrest

end VAG

/-! ## Claim C1 -/

/-- C1: in both resolver variants, an identifier resolved to a
declaration in an outer scope across at least one function boundary
(no occurrence of the name up to and including the nearest function
boundary, first occurrence beyond it) marks that variable `Boxed` in
the block-scope map of its declaring scope, and adds the name to the
closure set of the referencing (innermost) function and of every
intermediate function scope between the reference and the
declaration. -/
theorem c1_capture_boxes_and_closes :
    (∀ (st : SLC.St) (L : List Scope) (F : Scope) (M : List Scope)
        (D : Scope) (R : List Scope) (nameTok : Token),
        st.names = L ++ F :: (M ++ D :: R) →
        (∀ s ∈ L, s.stype = .Block ∧ lookupA s.map nameTok.text = none) →
        F.stype = .Function →
        lookupA F.map nameTok.text = none →
        (∀ s ∈ M, lookupA s.map nameTok.text = none) →
        (lookupA D.map nameTok.text).isSome →
        st.currentFunction.head? = some F.tok →
        (lookupA st.variableTypes D.tok).isSome →
        (lookupA st.closedNames F.tok).isSome →
        (∀ s ∈ M, s.stype = .Function →
          (lookupA st.closedNames s.tok).isSome) →
        ∃ st', SLC.lookupLocal st nameTok = .ok st' ∧
          (∃ m, lookupA st'.variableTypes D.tok = some m ∧
            lookupA m nameTok.text = some .Boxed) ∧
          (∃ l, lookupA st'.closedNames F.tok = some l ∧ nameTok.text ∈ l) ∧
          (∀ s ∈ M, s.stype = .Function →
            ∃ l, lookupA st'.closedNames s.tok = some l ∧
              nameTok.text ∈ l)) ∧
    (∀ (st : VAG.AGSt) (L : List Scope) (F : Scope) (M : List Scope)
        (D : Scope) (R : List Scope) (name : String),
        st.scopes = L ++ F :: (M ++ D :: R) →
        (∀ s ∈ L, s.stype = .Block ∧ lookupA s.map name = none) →
        F.stype = .Function →
        lookupA F.map name = none →
        (∀ s ∈ M, lookupA s.map name = none) →
        (lookupA D.map name).isSome →
        (∃ m, lookupA (VAG.lookupNameV st name).store.blockScopes D.tok =
            some m ∧ lookupA m name = some .Boxed) ∧
        (∃ l, lookupA (VAG.lookupNameV st name).store.closureScopes F.tok =
            some l ∧ name ∈ l) ∧
        (∀ s ∈ M, s.stype = .Function →
          ∃ l, lookupA (VAG.lookupNameV st name).store.closureScopes s.tok =
            some l ∧ name ∈ l)) := by
  constructor
  · intro st L F M D R nameTok hnames hL hFty hFmap hM hD hcf hvt hcn hMfn
    rw [SLC.lookupLocal, hnames,
      SLC.goLocal_append st nameTok.text L _ hL,
      SLC.goLocal_function st nameTok.text F _ hFty hFmap]
    obtain ⟨st', h1, _, _, _, h5, h6, _, h8⟩ :=
      SLC.goOuter_capture nameTok.text M D R st [] F.tok hM hD hcf hvt hcn
        (by simp) hMfn
    exact ⟨st', h1, h5, h6, h8⟩
  · intro st L F M D R name hscopes hL hFty hFmap hM hD
    have hlocal : VAG.lookupLocalV name st.scopes = false := by
      rw [hscopes, VAG.lookupLocalV_skip name L _ hL]
      exact VAG.lookupLocalV_function name F _ hFty hFmap
    have houter : VAG.lookupOuterV name st.scopes = true := by
      rw [hscopes, VAG.lookupOuterV_skip name L _ (fun s hs => (hL s hs).1),
        VAG.lookupOuterV_function name F _ hFty]
      exact VAG.outerPhase_found name M D R hM hD
    have hmark : VAG.lookupNameV st name =
        { st with store := VAG.markLocal st.store name st.scopes } := by
      rw [VAG.lookupNameV, hlocal, houter]
      simp
    have hrest : VAG.markLocal st.store name st.scopes =
        VAG.markOuter (VAG.storeClosureInsert st.store F.tok name) name
          (M ++ D :: R) := by
      rw [hscopes, VAG.markLocal_skip _ _ L _ hL,
        VAG.markLocal_function _ _ _ _ hFty]
    obtain ⟨h1, h2, h3⟩ := VAG.markOuter_blockBoxed name M D R
      (VAG.storeClosureInsert st.store F.tok name) hM hD
    rw [hmark]
    refine ⟨?_, ?_, ?_⟩
    · show ∃ m,
        lookupA (VAG.markLocal st.store name st.scopes).blockScopes D.tok =
          some m ∧ lookupA m name = some .Boxed
      rw [hrest]
      exact h1
    · show ∃ l,
        lookupA (VAG.markLocal st.store name st.scopes).closureScopes F.tok =
          some l ∧ name ∈ l
      rw [hrest]
      obtain ⟨l1, hl1, hn1⟩ := VAG.storeClosureInsert_self st.store F.tok name
      exact h2 F.tok l1 name hl1 hn1
    · intro s hs hsf
      show ∃ l,
          lookupA (VAG.markLocal st.store name st.scopes).closureScopes s.tok =
            some l ∧ name ∈ l
      rw [hrest]
      exact h3 s hs hsf

/-- C1, witness: a block-declared `x`, an intermediate anonymous
function, and an innermost function referencing `x`; both variants mark
`x` boxed at the block and closed over by both functions. -/
theorem c1_witness :
    (∃ st', SLC.lookupLocal
        ⟨[⟨.Function, ⟨.NameTok, 1, 0, "f"⟩, []⟩,
          ⟨.Function, ⟨.Arrow, 2, 0, ""⟩, []⟩,
          ⟨.Block, ⟨.BeginBlock, 0, 0, ""⟩, [("x", true)]⟩], 0, [],
         [⟨.NameTok, 1, 0, "f"⟩, ⟨.Arrow, 2, 0, ""⟩],
         [(⟨.BeginBlock, 0, 0, ""⟩, [("x", VariableType.Normal)]),
          (⟨.NameTok, 1, 0, "f"⟩, []), (⟨.Arrow, 2, 0, ""⟩, [])],
         [(⟨.NameTok, 1, 0, "f"⟩, []), (⟨.Arrow, 2, 0, ""⟩, [])]⟩
        ⟨.NameTok, 5, 0, "x"⟩ = .ok st' ∧
      (∃ m, lookupA st'.variableTypes ⟨.BeginBlock, 0, 0, ""⟩ = some m ∧
        lookupA m "x" = some .Boxed) ∧
      (∃ l, lookupA st'.closedNames ⟨.NameTok, 1, 0, "f"⟩ = some l ∧
        "x" ∈ l) ∧
      (∀ s ∈ [(⟨.Function, ⟨.Arrow, 2, 0, ""⟩, []⟩ : Scope)],
        s.stype = .Function →
        ∃ l, lookupA st'.closedNames s.tok = some l ∧ "x" ∈ l)) ∧
    ((∃ m, lookupA (VAG.lookupNameV
          ⟨⟨[], []⟩,
           [⟨.Function, ⟨.NameTok, 1, 0, "f"⟩, []⟩,
            ⟨.Function, ⟨.Arrow, 2, 0, ""⟩, []⟩,
            ⟨.Block, ⟨.BeginBlock, 0, 0, ""⟩, [("x", true)]⟩]⟩
          "x").store.blockScopes ⟨.BeginBlock, 0, 0, ""⟩ = some m ∧
        lookupA m "x" = some .Boxed) ∧
      (∃ l, lookupA (VAG.lookupNameV
          ⟨⟨[], []⟩,
           [⟨.Function, ⟨.NameTok, 1, 0, "f"⟩, []⟩,
            ⟨.Function, ⟨.Arrow, 2, 0, ""⟩, []⟩,
            ⟨.Block, ⟨.BeginBlock, 0, 0, ""⟩, [("x", true)]⟩]⟩
          "x").store.closureScopes ⟨.NameTok, 1, 0, "f"⟩ = some l ∧
        "x" ∈ l) ∧
      (∀ s ∈ [(⟨.Function, ⟨.Arrow, 2, 0, ""⟩, []⟩ : Scope)],
        s.stype = .Function →
        ∃ l, lookupA (VAG.lookupNameV
            ⟨⟨[], []⟩,
             [⟨.Function, ⟨.NameTok, 1, 0, "f"⟩, []⟩,
              ⟨.Function, ⟨.Arrow, 2, 0, ""⟩, []⟩,
              ⟨.Block, ⟨.BeginBlock, 0, 0, ""⟩, [("x", true)]⟩]⟩
            "x").store.closureScopes s.tok = some l ∧ "x" ∈ l)) := by
  constructor
  · exact c1_capture_boxes_and_closes.1 _ []
      ⟨.Function, ⟨.NameTok, 1, 0, "f"⟩, []⟩
      [⟨.Function, ⟨.Arrow, 2, 0, ""⟩, []⟩]
      ⟨.Block, ⟨.BeginBlock, 0, 0, ""⟩, [("x", true)]⟩ [] _
      rfl (by simp) rfl rfl (by decide) (by decide) rfl (by decide)
      (by decide) (by decide)
  · exact c1_capture_boxes_and_closes.2 _ []
      ⟨.Function, ⟨.NameTok, 1, 0, "f"⟩, []⟩
      [⟨.Function, ⟨.Arrow, 2, 0, ""⟩, []⟩]
      ⟨.Block, ⟨.BeginBlock, 0, 0, ""⟩, [("x", true)]⟩ [] "x"
      rfl (by simp) rfl rfl (by decide) (by decide)

/-! ## Claim C3 -/

/-- C3, counterexample: the annotation-generation resolver's
`visit_variable_expr` on a name found in no scope returns `Ok` and
leaves the state unchanged — it does not fail with a name-not-found
error as the claim states for both variants. -/
theorem c3_counterexample :
    VAG.visitVariableExprV
        ⟨⟨[], []⟩, [⟨.Block, ⟨.BeginBlock, 0, 0, ""⟩, []⟩]⟩
        ⟨.NameTok, 1, 0, "x"⟩ =
      .ok (⟨⟨[], []⟩, [⟨.Block, ⟨.BeginBlock, 0, 0, ""⟩, []⟩]⟩,
        ⟨.NameTok, 1, 0, "x"⟩) := rfl

/-- C3, amended: an identifier found in no scope at all fails with the
name-not-found error in the syntax-level resolver; the
annotation-generation resolver has no failure channel and returns with
the state (including the annotation store) unchanged. -/
theorem c3_name_not_found :
    (∀ (st : SLC.St) (nameTok : Token),
        (∀ s ∈ st.names, lookupA s.map nameTok.text = none) →
        SLC.lookupLocal st nameTok = .error .noSuchVariable) ∧
    (∀ (st : VAG.AGSt) (name : String),
        (∀ s ∈ st.scopes, lookupA s.map name = none) →
        VAG.lookupNameV st name = st) := by
  constructor
  · intro st nameTok h
    rw [SLC.lookupLocal]
    exact SLC.goLocal_none st nameTok.text st.names h
  · intro st name h
    rw [VAG.lookupNameV, VAG.lookupLocalV_none name st.scopes h,
      VAG.lookupOuterV_none name st.scopes h]
    simp

/-- C3, witness: a name absent from the only scope. -/
theorem c3_witness :
    SLC.lookupLocal
        ⟨[⟨.Block, ⟨.BeginBlock, 0, 0, ""⟩, []⟩], 0, [], [], [], []⟩
        ⟨.NameTok, 1, 0, "x"⟩ = .error .noSuchVariable ∧
      VAG.lookupNameV ⟨⟨[], []⟩, [⟨.Block, ⟨.BeginBlock, 0, 0, ""⟩, []⟩]⟩
          "x" =
        ⟨⟨[], []⟩, [⟨.Block, ⟨.BeginBlock, 0, 0, ""⟩, []⟩]⟩ :=
  ⟨c3_name_not_found.1 _ _ (by decide), c3_name_not_found.2 _ _ (by decide)⟩

/-! ## Claim C7 -/

/-- C7: a reference that finds its name in the declaring region in
declared-but-uninitialized state without crossing a function boundary
fails with the use-before-definition error; the same
declared-but-uninitialized entry found past a function boundary (a
forward reference from inside a nested function body) resolves
successfully. -/
theorem c7_use_before_definition :
    (∀ (st : SLC.St) (L : List Scope) (s : Scope) (rest : List Scope)
        (nameTok : Token),
        st.names = L ++ s :: rest →
        (∀ x ∈ L, x.stype = .Block ∧ lookupA x.map nameTok.text = none) →
        lookupA s.map nameTok.text = some false →
        SLC.lookupLocal st nameTok = .error .useBeforeDefinition) ∧
    (∀ (st : SLC.St) (L : List Scope) (F : Scope) (M : List Scope)
        (D : Scope) (R : List Scope) (nameTok : Token),
        st.names = L ++ F :: (M ++ D :: R) →
        (∀ s ∈ L, s.stype = .Block ∧ lookupA s.map nameTok.text = none) →
        F.stype = .Function →
        lookupA F.map nameTok.text = none →
        (∀ s ∈ M, lookupA s.map nameTok.text = none) →
        lookupA D.map nameTok.text = some false →
        st.currentFunction.head? = some F.tok →
        (lookupA st.variableTypes D.tok).isSome →
        (lookupA st.closedNames F.tok).isSome →
        (∀ s ∈ M, s.stype = .Function →
          (lookupA st.closedNames s.tok).isSome) →
        ∃ st', SLC.lookupLocal st nameTok = .ok st') := by
  constructor
  · intro st L s rest nameTok hnames hL hmap
    rw [SLC.lookupLocal, hnames, SLC.goLocal_append st nameTok.text L _ hL,
      SLC.goLocal, hmap]
  · intro st L F M D R nameTok hnames hL hFty hFmap hM hD hcf hvt hcn hMfn
    rw [SLC.lookupLocal, hnames,
      SLC.goLocal_append st nameTok.text L _ hL,
      SLC.goLocal_function st nameTok.text F _ hFty hFmap]
    obtain ⟨st', h1, _⟩ :=
      SLC.goOuter_capture nameTok.text M D R st [] F.tok hM (by simp [hD])
        hcf hvt hcn (by simp) hMfn
    exact ⟨st', h1⟩

/-- C7, witness: `x` declared but not yet defined in the innermost
block is a use-before-definition error when referenced directly, and
resolves when referenced from inside a nested function. -/
theorem c7_witness :
    SLC.lookupLocal
        ⟨[⟨.Block, ⟨.BeginBlock, 0, 0, ""⟩, [("x", false)]⟩], 0, [], [],
         [(⟨.BeginBlock, 0, 0, ""⟩, [("x", VariableType.Normal)])], []⟩
        ⟨.NameTok, 1, 0, "x"⟩ = .error .useBeforeDefinition ∧
      (∃ st', SLC.lookupLocal
          ⟨[⟨.Function, ⟨.NameTok, 1, 0, "f"⟩, []⟩,
            ⟨.Block, ⟨.BeginBlock, 0, 0, ""⟩, [("x", false)]⟩], 0, [],
           [⟨.NameTok, 1, 0, "f"⟩],
           [(⟨.BeginBlock, 0, 0, ""⟩, [("x", VariableType.Normal)]),
            (⟨.NameTok, 1, 0, "f"⟩, [])],
           [(⟨.NameTok, 1, 0, "f"⟩, [])]⟩
          ⟨.NameTok, 5, 0, "x"⟩ = .ok st') := by
  constructor
  · exact c7_use_before_definition.1 _ []
      ⟨.Block, ⟨.BeginBlock, 0, 0, ""⟩, [("x", false)]⟩ [] _
      rfl (by simp) (by decide)
  · exact c7_use_before_definition.2 _ []
      ⟨.Function, ⟨.NameTok, 1, 0, "f"⟩, []⟩ []
      ⟨.Block, ⟨.BeginBlock, 0, 0, ""⟩, [("x", false)]⟩ [] _
      rfl (by simp) rfl rfl (by simp) (by decide) rfl (by decide)
      (by decide) (by simp)

/-! ## Syntax-level checker: invariant preservation (towards C4) -/

namespace SLC

theorem visitok_pure {st : St} (o : Bool) (h : Inv st) :
    VisitOK st (.ok st) o :=
  ⟨h, rfl, rfl, rfl⟩

theorem visitok_mono {st : St} {r : Except CheckError St} {o o' : Bool}
    (h : VisitOK st r o') (himp : o = true → o' = true) :
    VisitOK st r o := by
  cases r with
  | ok st' => exact h
  | error e => exact ⟨h.1, fun ho => h.2 (himp ho)⟩

theorem visitok_bind {st : St} {r : Except CheckError St}
    {f : St → Except CheckError St} {o1 o2 : Bool}
    (h1 : VisitOK st r o1)
    (h2 : ∀ st1, Inv st1 → namesShape st1.names = namesShape st.names →
      st1.currentBlock = st.currentBlock →
      st1.currentFunction = st.currentFunction →
      VisitOK st1 (f st1) o2) :
    VisitOK st (r >>= f) (o1 && o2) := by
  cases r with
  | error e =>
      have hb : ((Except.error e : Except CheckError St) >>= f) =
        Except.error e := rfl
      rw [hb]
      exact ⟨h1.1, fun ho => h1.2 (by simp at ho; exact ho.1)⟩
  | ok st1 =>
      obtain ⟨hInv1, hsh, hcb, hcf⟩ := h1
      have hb : ((Except.ok st1 : Except CheckError St) >>= f) = f st1 := rfl
      rw [hb]
      have h2' := h2 st1 hInv1 hsh hcb hcf
      cases hf : f st1 with
      | ok st2 =>
          obtain ⟨i2, s2, b2, f2⟩ := (hf ▸ h2' : VisitOK st1 (.ok st2) o2)
          exact ⟨i2, s2.trans hsh, b2.trans hcb, f2.trans hcf⟩
      | error e =>
          obtain ⟨ne, hn⟩ := (hf ▸ h2' : VisitOK st1 (.error e) o2)
          exact ⟨ne, fun ho => hn (by simp at ho; exact ho.2)⟩

theorem newScope_names (st : St) (ty : ScopeType) (tok : Token) :
    (newScope st ty tok).names = ⟨ty, tok, []⟩ :: st.names := by
  cases ty <;> simp [newScope]

theorem newScope_cb (st : St) (ty : ScopeType) (tok : Token) :
    (newScope st ty tok).currentBlock = tok :: st.currentBlock := by
  cases ty <;> simp [newScope]

theorem newScope_cf (st : St) (ty : ScopeType) (tok : Token) :
    (newScope st ty tok).currentFunction =
      if ty = .Function then tok :: st.currentFunction
      else st.currentFunction := by
  cases ty <;> simp [newScope]

theorem newScope_vt (st : St) (ty : ScopeType) (tok : Token) :
    (newScope st ty tok).variableTypes = imInsert st.variableTypes tok [] := by
  cases ty <;> simp [newScope]

theorem newScope_cn (st : St) (ty : ScopeType) (tok : Token) :
    (newScope st ty tok).closedNames =
      if ty = .Function then imInsert st.closedNames tok []
      else st.closedNames := by
  cases ty <;> simp [newScope]

theorem newScope_inv (st : St) (ty : ScopeType) (tok : Token) (h : Inv st) :
    Inv (newScope st ty tok) := by
  obtain ⟨h1, h2, h3, extra, h4⟩ := h
  refine ⟨?_, ?_, ?_, ?_⟩
  · intro s hs
    rw [newScope_names] at hs
    rw [newScope_vt]
    rcases List.mem_cons.mp hs with rfl | hs
    · rw [lookupA_imInsert_self]
      rfl
    · exact lookupA_imInsert_isSome _ _ _ _ (h1 s hs)
  · intro t ht
    rw [newScope_cf] at ht
    rw [newScope_cn]
    cases ty with
    | Function =>
        simp only [if_true, reduceIte] at ht ⊢
        rcases List.mem_cons.mp ht with rfl | ht
        · rw [lookupA_imInsert_self]; rfl
        · exact lookupA_imInsert_isSome _ _ _ _ (h2 t ht)
    | Block =>
        simp only [reduceCtorEq, if_false, reduceIte] at ht ⊢
        exact h2 t ht
  · rw [newScope_cf, newScope_names]
    cases ty with
    | Function => simp [List.filter_cons, h3]
    | Block => simp [List.filter_cons, h3]
  · rw [newScope_cb, newScope_names]
    exact ⟨extra, by simp [h4]⟩

theorem popScope_sound (st : St) (s : Scope) (rest : List Scope)
    (hnames : st.names = s :: rest) (h : Inv st) :
    ∃ st', popScope st = .ok st' ∧ Inv st' ∧ st'.names = rest ∧
      st'.currentBlock = st.currentBlock.tail ∧
      st'.currentFunction =
        (if s.stype = .Function then st.currentFunction.tail
         else st.currentFunction) := by
  obtain ⟨h1, h2, h3, extra, h4⟩ := h
  by_cases hf : s.stype = .Function
  · refine ⟨⟨rest, st.totalVariables - s.map.length, st.currentBlock.tail,
        st.currentFunction.tail, st.variableTypes, st.closedNames⟩,
      by simp [popScope, hnames, hf], ?_, rfl, rfl, by rw [if_pos hf]⟩
    refine ⟨?_, ?_, ?_, ?_⟩
    · intro x hx
      exact h1 x (by simp [hnames, hx])
    · intro t ht
      exact h2 t (List.mem_of_mem_tail ht)
    · rw [hnames] at h3
      simp [List.filter_cons, hf] at h3
      rw [h3]
      simp
    · refine ⟨extra, ?_⟩
      rw [hnames] at h4
      simp only [List.map_cons] at h4
      rw [h4]
      rfl
  · refine ⟨⟨rest, st.totalVariables - s.map.length, st.currentBlock.tail,
        st.currentFunction, st.variableTypes, st.closedNames⟩,
      by simp [popScope, hnames, hf], ?_, rfl, rfl, by rw [if_neg hf]⟩
    refine ⟨?_, ?_, ?_, ?_⟩
    · intro x hx
      exact h1 x (by simp [hnames, hx])
    · exact h2
    · rw [hnames] at h3
      simp only [List.filter_cons] at h3
      rw [h3]
      simp [hf]
    · refine ⟨extra, ?_⟩
      rw [hnames] at h4
      simp only [List.map_cons] at h4
      rw [h4]
      rfl

theorem depsFold_dom {cn cn' : List (Token × List String)} {name : String}
    {deps : List Token} (h : depsFold cn name deps = some cn') (k : Token) :
    (lookupA cn' k).isSome ↔ (lookupA cn k).isSome := by
  induction deps generalizing cn with
  | nil => rw [depsFold] at h; cases h; rfl
  | cons d ds ih =>
      rw [depsFold] at h
      cases hcn1 : updA cn d (fun l => isInsert l name) with
      | none => rw [hcn1] at h; simp at h
      | some cn1 =>
          rw [hcn1] at h
          simp only [Option.some_bind] at h
          rw [ih h, updA_isSome hcn1]

theorem goOuter_sound (st : St) (name : String) (h : Inv st) :
    ∀ (l : List Scope) (deps : List Token),
      (∀ s ∈ l, s ∈ st.names) →
      (∀ t ∈ deps, t ∈ st.currentFunction) →
      st.currentFunction ≠ [] →
      (match goOuter st name deps l with
       | .ok st' => Inv st' ∧ st'.names = st.names ∧
           st'.currentBlock = st.currentBlock ∧
           st'.currentFunction = st.currentFunction
       | .error e => e = .noSuchVariable) := by
  obtain ⟨h1, h2, h3, extra, h4⟩ := h
  intro l
  induction l with
  | nil => intro deps _ _ _; rw [goOuter]
  | cons s rest ih =>
      intro deps hsub hdeps hcf
      have hs : s ∈ st.names := hsub s (by simp)
      have hrest : ∀ x ∈ rest, x ∈ st.names :=
        fun x hx => hsub x (by simp [hx])
      by_cases hfound : (lookupA s.map name).isSome
      · have hvt : (lookupA st.variableTypes s.tok).isSome := h1 s hs
        have hvtU : updA st.variableTypes s.tok
            (fun m => imInsert m name .Boxed) ≠ none := by
          rw [Ne, updA_eq_none_iff]
          intro hk; rw [hk] at hvt; simp at hvt
        obtain ⟨vt, hvtEq⟩ := Option.ne_none_iff_exists'.mp hvtU
        obtain ⟨cf0, cfrest, hcf0⟩ := List.exists_cons_of_ne_nil hcf
        have hcf0mem : cf0 ∈ st.currentFunction := by
          rw [hcf0]; simp
        have hcn0 : (lookupA st.closedNames cf0).isSome := h2 cf0 hcf0mem
        have hcnU : updA st.closedNames cf0 (fun l => isInsert l name) ≠
            none := by
          rw [Ne, updA_eq_none_iff]
          intro hk; rw [hk] at hcn0; simp at hcn0
        obtain ⟨cn1, hcn1⟩ := Option.ne_none_iff_exists'.mp hcnU
        have hdom : ∀ d ∈ deps, (lookupA cn1 d).isSome := by
          intro d hd
          rw [updA_isSome hcn1]
          exact h2 d (hdeps d hd)
        obtain ⟨cn2, hcn2⟩ := depsFold_isSome cn1 name deps hdom
        have hhead : st.currentFunction.head? = some cf0 := by
          rw [hcf0]; rfl
        have hres2 : goOuter st name deps (s :: rest) =
            Except.ok ⟨st.names, st.totalVariables, st.currentBlock,
              st.currentFunction, vt, cn2⟩ := by
          rw [goOuter, if_pos hfound]
          simp only [hvtEq, hhead, hcn1, hcn2]
        rw [hres2]
        refine ⟨⟨?_, ?_, h3, extra, h4⟩, rfl, rfl, rfl⟩
        · intro x hx
          rw [updA_isSome hvtEq]
          exact h1 x hx
        · intro t ht
          rw [depsFold_dom hcn2, updA_isSome hcn1]
          exact h2 t ht
      · rw [goOuter, if_neg hfound]
        by_cases hf : s.stype = .Function
        · rw [if_pos hf]
          refine ih (isInsert deps s.tok) hrest ?_ hcf
          intro t ht
          rcases (mem_isInsert deps t s.tok).mp ht with ht | rfl
          · exact hdeps t ht
          · rw [h3]
            refine List.mem_map.mpr ⟨s, ?_, rfl⟩
            rw [List.mem_filter]
            exact ⟨hs, by simp [hf]⟩
        · rw [if_neg hf]
          exact ih deps hrest hdeps hcf

theorem goLocal_sound (st : St) (name : String) (h : Inv st) :
    ∀ l : List Scope, (∀ s ∈ l, s ∈ st.names) →
      (match goLocal st name l with
       | .ok st' => Inv st' ∧ st'.names = st.names ∧
           st'.currentBlock = st.currentBlock ∧
           st'.currentFunction = st.currentFunction
       | .error e => e = .noSuchVariable ∨ e = .useBeforeDefinition) := by
  intro l
  induction l with
  | nil => intro _; rw [goLocal]; exact Or.inl rfl
  | cons s rest ih =>
      intro hsub
      have hs : s ∈ st.names := hsub s (by simp)
      have hrest : ∀ x ∈ rest, x ∈ st.names :=
        fun x hx => hsub x (by simp [hx])
      rw [goLocal]
      cases hl : lookupA s.map name with
      | some b =>
          cases b
          · exact Or.inr rfl
          · exact ⟨h, rfl, rfl, rfl⟩
      | none =>
          cases hf : s.stype with
          | Block => exact ih hrest
          | Function =>
              have hcf : st.currentFunction ≠ [] := by
                intro hemp
                have := h.2.2.1
                rw [hemp] at this
                have hmem : s.tok ∈
                    (st.names.filter
                      (fun s => s.stype == ScopeType.Function)).map
                        Scope.tok := by
                  refine List.mem_map.mpr ⟨s, ?_, rfl⟩
                  rw [List.mem_filter]
                  exact ⟨hs, by simp [hf]⟩
                rw [← this] at hmem
                simp at hmem
              have := goOuter_sound st name h rest [] hrest (by simp) hcf
              cases hres : goOuter st name [] rest with
              | ok st' => rw [hres] at this; exact this
              | error e =>
                  rw [hres] at this
                  exact Or.inl this

theorem lookupLocal_visitok (st : St) (tok : Token) (o : Bool)
    (h : Inv st) : VisitOK st (lookupLocal st tok) o := by
  rw [lookupLocal]
  have := goLocal_sound st tok.text h st.names (fun s hs => hs)
  cases hres : goLocal st tok.text st.names with
  | ok st' =>
      rw [hres] at this
      obtain ⟨i, hn, hb, hf⟩ := this
      exact ⟨i, by rw [hn], hb, hf⟩
  | error e =>
      rw [hres] at this
      refine ⟨?_, fun _ => ?_⟩ <;> rcases this with rfl | rfl <;>
        first | exact fun hh => CheckError.noConfusion hh | rfl

theorem defineName_visitok (st : St) (v : Token) (o : Bool) (h : Inv st)
    (hne : st.names ≠ []) : VisitOK st (defineName st v) o := by
  obtain ⟨s, rest, hnames⟩ := List.exists_cons_of_ne_nil hne
  obtain ⟨h1, h2, h3, extra, h4⟩ := h
  simp only [defineName, hnames]
  cases hl : lookupA s.map v.text with
  | some b =>
      cases b
      · refine ⟨⟨?_, h2, ?_, extra, ?_⟩, ?_, rfl, rfl⟩
        · intro x hx
          rcases List.mem_cons.mp hx with rfl | hx
          · exact h1 s (by simp [hnames])
          · exact h1 x (by simp [hnames, hx])
        · rw [hnames] at h3
          rw [h3]
          simp only [List.filter_cons]
          by_cases hsf : s.stype = ScopeType.Function <;> simp [hsf]
        · rw [hnames] at h4
          rw [h4]
          simp
        · rw [hnames]
          simp [namesShape]
      · exact ⟨fun hh => CheckError.noConfusion hh, fun _ => rfl⟩
  | none => exact ⟨fun hh => CheckError.noConfusion hh, fun _ => rfl⟩

theorem declareName_visitok (st : St) (v : Token) (o : Bool) (h : Inv st)
    (hne : st.names ≠ []) : VisitOK st (declareName st v) o := by
  obtain ⟨s, rest, hnames⟩ := List.exists_cons_of_ne_nil hne
  obtain ⟨h1, h2, h3, extra, h4⟩ := h
  simp only [declareName, hnames]
  by_cases hl : (lookupA s.map v.text).isSome
  · rw [if_pos hl]
    exact ⟨fun hh => CheckError.noConfusion hh, fun _ => rfl⟩
  · rw [if_neg hl]
    have hcb : st.currentBlock.head? = some s.tok := by
      rw [h4, hnames]
      simp
    have hvt : (lookupA st.variableTypes s.tok).isSome :=
      h1 s (by simp [hnames])
    have hvtU : updA st.variableTypes s.tok
        (fun m => imInsert m v.text .Normal) ≠ none := by
      rw [Ne, updA_eq_none_iff]
      intro hk; rw [hk] at hvt; simp at hvt
    obtain ⟨vt, hvtEq⟩ := Option.ne_none_iff_exists'.mp hvtU
    simp only [hcb, hvtEq]
    refine ⟨⟨?_, h2, ?_, extra, ?_⟩, ?_, rfl, rfl⟩
    · intro x hx
      rw [updA_isSome hvtEq]
      rcases List.mem_cons.mp hx with rfl | hx
      · exact h1 s (by simp [hnames])
      · exact h1 x (by simp [hnames, hx])
    · rw [hnames] at h3
      rw [h3]
      simp only [List.filter_cons]
      by_cases hsf : s.stype = ScopeType.Function <;> simp [hsf]
    · rw [hnames] at h4
      rw [h4]
      simp
    · rw [hnames]
      simp [namesShape]

theorem predeclareBlock_visitok (l : List SStmt) (st : St) (h : Inv st)
    (hne : st.names ≠ []) (o : Bool) :
    VisitOK st (predeclareBlock st l) o := by
  induction l generalizing st with
  | nil => exact visitok_pure o h
  | cons s rest ih =>
      have step : ∀ (n : Token),
          VisitOK st (declareName st n >>= fun st1 =>
            predeclareBlock st1 rest) o := by
        intro n
        have hd := declareName_visitok st n true h hne
        cases hdec : declareName st n with
        | error e =>
            have hb : ((Except.error e : Except CheckError St) >>= fun st1 =>
              predeclareBlock st1 rest) = Except.error e := rfl
            rw [hb]
            obtain ⟨ne, hn⟩ := (hdec ▸ hd : VisitOK st (.error e) true)
            exact ⟨ne, fun _ => hn rfl⟩
        | ok st1 =>
            have hb : ((Except.ok st1 : Except CheckError St) >>= fun st1 =>
              predeclareBlock st1 rest) = predeclareBlock st1 rest := rfl
            rw [hb]
            obtain ⟨i1, s1, b1, f1⟩ := (hdec ▸ hd : VisitOK st (.ok st1) true)
            have hne1 : st1.names ≠ [] := by
              intro hh
              rw [hh] at s1
              obtain ⟨x, xs, hx⟩ := List.exists_cons_of_ne_nil hne
              rw [hx] at s1
              simp [namesShape] at s1
            have := ih st1 i1 hne1
            cases hres : predeclareBlock st1 rest with
            | ok st2 =>
                obtain ⟨i2, s2, b2, f2⟩ :=
                  (hres ▸ this : VisitOK st1 (.ok st2) o)
                exact ⟨i2, s2.trans s1, b2.trans b1, f2.trans f1⟩
            | error e =>
                exact (hres ▸ this : VisitOK st1 (.error e) o)
      cases s with
      | varDeclaration n b => exact step n
      | functionDeclaration n args body => exact step n
      | print e => exact ih st h hne
      | assignment t e => exact ih st h hne
      | expression e => exact ih st h hne
      | assertStmt k e => exact ih st h hne

theorem declareDefineArgs_visitok (args : List Token) (st : St) (h : Inv st)
    (hne : st.names ≠ []) (o : Bool) :
    VisitOK st (declareDefineArgs st args) o := by
  induction args generalizing st with
  | nil => exact visitok_pure o h
  | cons a rest ih =>
      rw [declareDefineArgs]
      have hd := declareName_visitok st a true h hne
      cases hdec : declareName st a with
      | error e =>
          have hb : ((Except.error e : Except CheckError St) >>= fun st1 =>
            defineName st1 a >>= fun st2 => declareDefineArgs st2 rest) =
              Except.error e := rfl
          rw [hb]
          obtain ⟨ne, hn⟩ := (hdec ▸ hd : VisitOK st (.error e) true)
          exact ⟨ne, fun _ => hn rfl⟩
      | ok st1 =>
          have hb : ((Except.ok st1 : Except CheckError St) >>= fun st1 =>
            defineName st1 a >>= fun st2 => declareDefineArgs st2 rest) =
              (defineName st1 a >>= fun st2 => declareDefineArgs st2 rest) :=
            rfl
          rw [hb]
          obtain ⟨i1, s1, b1, f1⟩ := (hdec ▸ hd : VisitOK st (.ok st1) true)
          have hne1 : st1.names ≠ [] := by
            intro hh
            rw [hh] at s1
            obtain ⟨x, xs, hx⟩ := List.exists_cons_of_ne_nil hne
            rw [hx] at s1
            simp [namesShape] at s1
          have hdf := defineName_visitok st1 a true i1 hne1
          cases hdef : defineName st1 a with
          | error e =>
              have hb2 : ((Except.error e : Except CheckError St) >>=
                fun st2 => declareDefineArgs st2 rest) = Except.error e := rfl
              rw [hb2]
              obtain ⟨ne, hn⟩ := (hdef ▸ hdf : VisitOK st1 (.error e) true)
              exact ⟨ne, fun _ => hn rfl⟩
          | ok st2 =>
              have hb2 : ((Except.ok st2 : Except CheckError St) >>=
                fun st2 => declareDefineArgs st2 rest) =
                  declareDefineArgs st2 rest := rfl
              rw [hb2]
              obtain ⟨i2, s2, b2, f2⟩ :=
                (hdef ▸ hdf : VisitOK st1 (.ok st2) true)
              have hne2 : st2.names ≠ [] := by
                intro hh
                rw [hh] at s2
                obtain ⟨x, xs, hx⟩ := List.exists_cons_of_ne_nil hne1
                rw [hx] at s2
                simp [namesShape] at s2
              have := ih st2 i2 hne2
              cases hres : declareDefineArgs st2 rest with
              | ok st3 =>
                  obtain ⟨i3, s3, b3, f3⟩ :=
                    (hres ▸ this : VisitOK st2 (.ok st3) o)
                  exact ⟨i3, (s3.trans s2).trans s1, (b3.trans b2).trans b1,
                    (f3.trans f2).trans f1⟩
              | error e =>
                  exact (hres ▸ this : VisitOK st2 (.error e) o)

end SLC

theorem exceptBindOk {α β γ : Type} (a : α) (f : α → Except γ β) :
    (Except.ok a >>= f) = f a := rfl

theorem exceptBindErr {α β γ : Type} (e : γ) (f : α → Except γ β) :
    ((Except.error e : Except γ α) >>= f) = Except.error e := rfl

theorem namesShape_ne_nil {l l' : List Scope}
    (h : namesShape l = namesShape l') (hne : l' ≠ []) : l ≠ [] := by
  intro hh
  rw [hh] at h
  obtain ⟨x, xs, hx⟩ := List.exists_cons_of_ne_nil hne
  rw [hx] at h
  simp [namesShape] at h

namespace SLC

theorem checkFunctionS_visitok (st : St) (nm : Token) (args : List Token)
    (body : SExpr) (h : Inv st)
    (hbody : ∀ st', Inv st' → st'.names ≠ [] →
      VisitOK st' (visitExprS st' body) (opsE body)) :
    VisitOK st (checkFunctionS st nm args body) (opsE body) := by
  rw [checkFunctionS]
  have hInv0 := newScope_inv st .Function nm h
  have hne0 : (newScope st .Function nm).names ≠ [] := by
    rw [newScope_names]
    exact List.cons_ne_nil _ _
  cases hd : declareName (newScope st .Function nm) nm with
  | error e =>
      simp only [exceptBindErr]
      obtain ⟨ne, hn⟩ := hd ▸ declareName_visitok _ nm true hInv0 hne0
      exact ⟨ne, fun _ => hn rfl⟩
  | ok st1 =>
      simp only [exceptBindOk]
      obtain ⟨i1, s1, b1, f1⟩ := hd ▸ declareName_visitok _ nm true hInv0 hne0
      have hne1 := namesShape_ne_nil s1 hne0
      cases hdf : defineName st1 nm with
      | error e =>
          simp only [exceptBindErr]
          obtain ⟨ne, hn⟩ := hdf ▸ defineName_visitok st1 nm true i1 hne1
          exact ⟨ne, fun _ => hn rfl⟩
      | ok st2 =>
          simp only [exceptBindOk]
          obtain ⟨i2, s2, b2, f2⟩ :=
            hdf ▸ defineName_visitok st1 nm true i1 hne1
          have hne2 := namesShape_ne_nil s2 hne1
          cases ha : declareDefineArgs st2 args with
          | error e =>
              simp only [exceptBindErr]
              obtain ⟨ne, hn⟩ :=
                ha ▸ declareDefineArgs_visitok args st2 i2 hne2 true
              exact ⟨ne, fun _ => hn rfl⟩
          | ok st3 =>
              simp only [exceptBindOk]
              obtain ⟨i3, s3, b3, f3⟩ :=
                ha ▸ declareDefineArgs_visitok args st2 i2 hne2 true
              have hne3 := namesShape_ne_nil s3 hne2
              have hb := hbody st3 i3 hne3
              cases hv : visitExprS st3 body with
              | error e =>
                  simp only [exceptBindErr]
                  obtain ⟨ne, hn⟩ := hv ▸ hb
                  exact ⟨ne, hn⟩
              | ok st4 =>
                  simp only [exceptBindOk]
                  obtain ⟨i4, s4, b4, f4⟩ := hv ▸ hb
                  have hsh : namesShape st4.names =
                      (ScopeType.Function, nm) :: namesShape st.names := by
                    rw [s4, s3, s2, s1, newScope_names]
                    simp [namesShape]
                  cases hn4 : st4.names with
                  | nil => rw [hn4] at hsh; simp [namesShape] at hsh
                  | cons s4h rest4 =>
                      rw [hn4] at hsh
                      simp only [namesShape, List.map_cons,
                        List.cons.injEq, Prod.mk.injEq] at hsh
                      obtain ⟨⟨hty4, htok4⟩, hrest4⟩ := hsh
                      obtain ⟨st5, hpop, i5, hnames5, hcb5, hcf5⟩ :=
                        popScope_sound st4 s4h rest4 hn4 i4
                      rw [hpop]
                      refine ⟨i5, ?_, ?_, ?_⟩
                      · rw [hnames5]
                        exact hrest4
                      · rw [hcb5, b4, b3, b2, b1, newScope_cb]
                        rfl
                      · rw [hcf5, if_pos hty4, f4, f3, f2, f1, newScope_cf,
                          if_pos rfl]
                        rfl

theorem visitBlockS_visitok (st : St) (stmts : List SStmt) (tok : Token)
    (h : Inv st)
    (hstmts : ∀ st', Inv st' → st'.names ≠ [] →
      VisitOK st' (visitStmtsS st' stmts) (opsL stmts)) :
    VisitOK st (visitBlockS st stmts tok) (opsL stmts) := by
  rw [visitBlockS]
  have hInv0 := newScope_inv st .Block tok h
  have hne0 : (newScope st .Block tok).names ≠ [] := by
    rw [newScope_names]
    exact List.cons_ne_nil _ _
  cases hp : predeclareBlock (newScope st .Block tok) stmts with
  | error e =>
      simp only [exceptBindErr]
      obtain ⟨ne, hn⟩ :=
        hp ▸ predeclareBlock_visitok stmts (newScope st .Block tok) hInv0
          hne0 true
      exact ⟨ne, fun _ => hn rfl⟩
  | ok st1 =>
      simp only [exceptBindOk]
      obtain ⟨i1, s1, b1, f1⟩ :=
        hp ▸ predeclareBlock_visitok stmts (newScope st .Block tok) hInv0
          hne0 true
      have hne1 := namesShape_ne_nil s1 hne0
      have hst := hstmts st1 i1 hne1
      cases hv : visitStmtsS st1 stmts with
      | error e =>
          simp only [exceptBindErr]
          obtain ⟨ne, hn⟩ := hv ▸ hst
          exact ⟨ne, hn⟩
      | ok st2 =>
          simp only [exceptBindOk]
          obtain ⟨i2, s2, b2, f2⟩ := hv ▸ hst
          have hsh : namesShape st2.names =
              (ScopeType.Block, tok) :: namesShape st.names := by
            rw [s2, s1, newScope_names]
            simp [namesShape]
          cases hn2 : st2.names with
          | nil => rw [hn2] at hsh; simp [namesShape] at hsh
          | cons s2h rest2 =>
              rw [hn2] at hsh
              simp only [namesShape, List.map_cons, List.cons.injEq,
                Prod.mk.injEq] at hsh
              obtain ⟨⟨hty2, htok2⟩, hrest2⟩ := hsh
              obtain ⟨st3, hpop, i3, hnames3, hcb3, hcf3⟩ :=
                popScope_sound st2 s2h rest2 hn2 i2
              rw [hpop]
              refine ⟨i3, ?_, ?_, ?_⟩
              · rw [hnames3]
                exact hrest2
              · rw [hcb3, b2, b1, newScope_cb]
                rfl
              · rw [hcf3, if_neg (by rw [hty2]; exact fun hh =>
                  ScopeType.noConfusion hh), f2, f1, newScope_cf]
                simp

theorem visit_sound : ∀ (n : Nat),
    (∀ (e : SExpr) (st : St), sizeOf e ≤ n → Inv st → st.names ≠ [] →
      VisitOK st (visitExprS st e) (opsE e)) ∧
    (∀ (s : SStmt) (st : St), sizeOf s ≤ n → Inv st → st.names ≠ [] →
      VisitOK st (visitStmtS st s) (opsS s)) ∧
    (∀ (l : List SStmt) (st : St), sizeOf l ≤ n → Inv st → st.names ≠ [] →
      VisitOK st (visitStmtsS st l) (opsL l)) ∧
    (∀ (l : List SExpr) (st : St), sizeOf l ≤ n → Inv st → st.names ≠ [] →
      VisitOK st (visitExprListS st l) (opsEL l)) := by
  intro n
  induction n using Nat.strong_induction_on with
  | _ n ih =>
  have IHe : ∀ (e : SExpr) (st : St), sizeOf e < n → Inv st →
      st.names ≠ [] → VisitOK st (visitExprS st e) (opsE e) :=
    fun e st hlt => (ih (sizeOf e) hlt).1 e st le_rfl
  have IHs : ∀ (s : SStmt) (st : St), sizeOf s < n → Inv st →
      st.names ≠ [] → VisitOK st (visitStmtS st s) (opsS s) :=
    fun s st hlt => (ih (sizeOf s) hlt).2.1 s st le_rfl
  have IHl : ∀ (l : List SStmt) (st : St), sizeOf l < n → Inv st →
      st.names ≠ [] → VisitOK st (visitStmtsS st l) (opsL l) :=
    fun l st hlt => (ih (sizeOf l) hlt).2.2.1 l st le_rfl
  have IHel : ∀ (l : List SExpr) (st : St), sizeOf l < n → Inv st →
      st.names ≠ [] → VisitOK st (visitExprListS st l) (opsEL l) :=
    fun l st hlt => (ih (sizeOf l) hlt).2.2.2 l st le_rfl
  refine ⟨?_, ?_, ?_, ?_⟩
  · intro e st hsz hInv hne
    cases e with
    | number t =>
        rw [visitExprS]
        exact visitok_pure _ hInv
    | name tok =>
        rw [visitExprS]
        exact lookupLocal_visitok st tok _ hInv
    | binary op a b =>
        have hsa : sizeOf a < n := by simp at hsz; omega
        have hsb : sizeOf b < n := by simp at hsz; omega
        rw [visitExprS]
        cases hva : visitExprS st a with
        | error e =>
            simp only [exceptBindErr]
            obtain ⟨ne, hn⟩ := hva ▸ IHe a st hsa hInv hne
            refine ⟨ne, fun ho => hn ?_⟩
            simp only [opsE, Bool.and_eq_true] at ho
            exact ho.1.2
        | ok st1 =>
            simp only [exceptBindOk]
            obtain ⟨i1, s1, b1, f1⟩ := hva ▸ IHe a st hsa hInv hne
            cases hvb : visitExprS st1 b with
            | error e =>
                simp only [exceptBindErr]
                obtain ⟨ne, hn⟩ :=
                  hvb ▸ IHe b st1 hsb i1 (namesShape_ne_nil s1 hne)
                refine ⟨ne, fun ho => hn ?_⟩
                simp only [opsE, Bool.and_eq_true] at ho
                exact ho.2
            | ok st2 =>
                simp only [exceptBindOk]
                obtain ⟨i2, s2, b2, f2⟩ :=
                  hvb ▸ IHe b st1 hsb i1 (namesShape_ne_nil s1 hne)
                by_cases hop : supportedOp op.kind
                · rw [if_pos hop]
                  exact ⟨i2, s2.trans s1, b2.trans b1, f2.trans f1⟩
                · rw [if_neg hop]
                  refine ⟨fun hh => CheckError.noConfusion hh, fun ho => ?_⟩
                  simp only [opsE, Bool.and_eq_true] at ho
                  exact absurd ho.1.1 hop
    | ifExpr c t eb =>
        have hsc : sizeOf c < n := by simp at hsz; omega
        have hst : sizeOf t < n := by simp at hsz; omega
        rw [visitExprS]
        cases hvc : visitExprS st c with
        | error e =>
            simp only [exceptBindErr]
            obtain ⟨ne, hn⟩ := hvc ▸ IHe c st hsc hInv hne
            refine ⟨ne, fun ho => hn ?_⟩
            simp only [opsE, Bool.and_eq_true] at ho
            exact ho.1.1
        | ok st1 =>
            simp only [exceptBindOk]
            obtain ⟨i1, s1, b1, f1⟩ := hvc ▸ IHe c st hsc hInv hne
            cases hvt : visitExprS st1 t with
            | error e =>
                simp only [exceptBindErr]
                obtain ⟨ne, hn⟩ :=
                  hvt ▸ IHe t st1 hst i1 (namesShape_ne_nil s1 hne)
                refine ⟨ne, fun ho => hn ?_⟩
                simp only [opsE, Bool.and_eq_true] at ho
                exact ho.1.2
            | ok st2 =>
                simp only [exceptBindOk]
                obtain ⟨i2, s2, b2, f2⟩ :=
                  hvt ▸ IHe t st1 hst i1 (namesShape_ne_nil s1 hne)
                cases eb with
                | none =>
                    exact ⟨i2, s2.trans s1, b2.trans b1, f2.trans f1⟩
                | some e2 =>
                    have hse : sizeOf e2 < n := by simp at hsz; omega
                    have hE := IHe e2 st2 hse i2
                      (namesShape_ne_nil (s2.trans s1) hne)
                    show VisitOK st (visitExprS st2 e2)
                      (opsE (SExpr.ifExpr c t (some e2)))
                    cases hve : visitExprS st2 e2 with
                    | error e =>
                        obtain ⟨ne, hn⟩ := hve ▸ hE
                        refine ⟨ne, fun ho => hn ?_⟩
                        simp only [opsE, opsOptE, Bool.and_eq_true] at ho
                        exact ho.2
                    | ok st3 =>
                        obtain ⟨i3, s3, b3, f3⟩ := hve ▸ hE
                        exact ⟨i3, (s3.trans s2).trans s1,
                          (b3.trans b2).trans b1, (f3.trans f2).trans f1⟩
    | block tok stmts =>
        have hss : sizeOf stmts < n := by simp at hsz; omega
        rw [visitExprS, opsE]
        exact visitBlockS_visitok st stmts tok hInv
          (fun st' i hn => IHl stmts st' hss i hn)
    | call target args =>
        have hst : sizeOf target < n := by simp at hsz; omega
        have hsa : sizeOf args < n := by simp at hsz; omega
        rw [visitExprS]
        cases hvt : visitExprS st target with
        | error e =>
            simp only [exceptBindErr]
            obtain ⟨ne, hn⟩ := hvt ▸ IHe target st hst hInv hne
            refine ⟨ne, fun ho => hn ?_⟩
            simp only [opsE, Bool.and_eq_true] at ho
            exact ho.1
        | ok st1 =>
            simp only [exceptBindOk]
            obtain ⟨i1, s1, b1, f1⟩ := hvt ▸ IHe target st hst hInv hne
            have hA := IHel args st1 hsa i1 (namesShape_ne_nil s1 hne)
            cases hva : visitExprListS st1 args with
            | error e =>
                obtain ⟨ne, hn⟩ := hva ▸ hA
                refine ⟨ne, fun ho => hn ?_⟩
                simp only [opsE, Bool.and_eq_true] at ho
                exact ho.2
            | ok st2 =>
                obtain ⟨i2, s2, b2, f2⟩ := hva ▸ hA
                exact ⟨i2, s2.trans s1, b2.trans b1, f2.trans f1⟩
    | singleStatement s =>
        have hs : sizeOf s < n := by simp at hsz; omega
        rw [visitExprS, opsE]
        exact IHs s st hs hInv hne
  · intro s st hsz hInv hne
    cases s with
    | print e =>
        have hs : sizeOf e < n := by simp at hsz; omega
        rw [visitStmtS, opsS]
        exact IHe e st hs hInv hne
    | expression e =>
        have hs : sizeOf e < n := by simp at hsz; omega
        rw [visitStmtS, opsS]
        exact IHe e st hs hInv hne
    | assertStmt kw e =>
        have hs : sizeOf e < n := by simp at hsz; omega
        rw [visitStmtS, opsS]
        exact IHe e st hs hInv hne
    | varDeclaration nm body =>
        cases body with
        | none =>
            rw [visitStmtS]
            simp only [exceptBindOk]
            exact defineName_visitok st nm _ hInv hne
        | some e =>
            have hs : sizeOf e < n := by simp at hsz; omega
            rw [visitStmtS]
            cases hve : visitExprS st e with
            | error er =>
                simp only [exceptBindErr]
                obtain ⟨ne, hn⟩ := hve ▸ IHe e st hs hInv hne
                refine ⟨ne, fun ho => hn ?_⟩
                simp only [opsS, opsOptE] at ho
                exact ho
            | ok st1 =>
                simp only [exceptBindOk]
                obtain ⟨i1, s1, b1, f1⟩ := hve ▸ IHe e st hs hInv hne
                have hD := defineName_visitok st1 nm true i1
                  (namesShape_ne_nil s1 hne)
                cases hdf : defineName st1 nm with
                | error er =>
                    obtain ⟨ne, hn⟩ := hdf ▸ hD
                    exact ⟨ne, fun _ => hn rfl⟩
                | ok st2 =>
                    obtain ⟨i2, s2, b2, f2⟩ := hdf ▸ hD
                    exact ⟨i2, s2.trans s1, b2.trans b1, f2.trans f1⟩
    | assignment target e =>
        have hs : sizeOf e < n := by simp at hsz; omega
        rw [visitStmtS]
        cases hvl : lookupLocal st target with
        | error er =>
            simp only [exceptBindErr]
            obtain ⟨ne, hn⟩ := hvl ▸ lookupLocal_visitok st target true hInv
            exact ⟨ne, fun _ => hn rfl⟩
        | ok st1 =>
            simp only [exceptBindOk]
            obtain ⟨i1, s1, b1, f1⟩ :=
              hvl ▸ lookupLocal_visitok st target true hInv
            have hE := IHe e st1 hs i1 (namesShape_ne_nil s1 hne)
            cases hve : visitExprS st1 e with
            | error er =>
                obtain ⟨ne, hn⟩ := hve ▸ hE
                refine ⟨ne, fun ho => hn ?_⟩
                simp only [opsS] at ho
                exact ho
            | ok st2 =>
                obtain ⟨i2, s2, b2, f2⟩ := hve ▸ hE
                exact ⟨i2, s2.trans s1, b2.trans b1, f2.trans f1⟩
    | functionDeclaration nm args body =>
        have hs : sizeOf body < n := by simp at hsz; omega
        rw [visitStmtS]
        have hF := checkFunctionS_visitok st nm args body hInv
          (fun st' i hn => IHe body st' hs i hn)
        cases hvf : checkFunctionS st nm args body with
        | error er =>
            simp only [exceptBindErr]
            obtain ⟨ne, hn⟩ := hvf ▸ hF
            refine ⟨ne, fun ho => hn ?_⟩
            simp only [opsS] at ho
            exact ho
        | ok st1 =>
            simp only [exceptBindOk]
            obtain ⟨i1, s1, b1, f1⟩ := hvf ▸ hF
            have hD := defineName_visitok st1 nm true i1
              (namesShape_ne_nil s1 hne)
            cases hdf : defineName st1 nm with
            | error er =>
                obtain ⟨ne, hn⟩ := hdf ▸ hD
                exact ⟨ne, fun _ => hn rfl⟩
            | ok st2 =>
                obtain ⟨i2, s2, b2, f2⟩ := hdf ▸ hD
                exact ⟨i2, s2.trans s1, b2.trans b1, f2.trans f1⟩
  · intro l st hsz hInv hne
    cases l with
    | nil =>
        rw [visitStmtsS]
        exact visitok_pure _ hInv
    | cons s rest =>
        have hs : sizeOf s < n := by simp at hsz; omega
        have hr : sizeOf rest < n := by simp at hsz; omega
        rw [visitStmtsS]
        cases hvs : visitStmtS st s with
        | error er =>
            simp only [exceptBindErr]
            obtain ⟨ne, hn⟩ := hvs ▸ IHs s st hs hInv hne
            refine ⟨ne, fun ho => hn ?_⟩
            simp only [opsL, Bool.and_eq_true] at ho
            exact ho.1
        | ok st1 =>
            simp only [exceptBindOk]
            obtain ⟨i1, s1, b1, f1⟩ := hvs ▸ IHs s st hs hInv hne
            have hR := IHl rest st1 hr i1 (namesShape_ne_nil s1 hne)
            cases hvr : visitStmtsS st1 rest with
            | error er =>
                obtain ⟨ne, hn⟩ := hvr ▸ hR
                refine ⟨ne, fun ho => hn ?_⟩
                simp only [opsL, Bool.and_eq_true] at ho
                exact ho.2
            | ok st2 =>
                obtain ⟨i2, s2, b2, f2⟩ := hvr ▸ hR
                exact ⟨i2, s2.trans s1, b2.trans b1, f2.trans f1⟩
  · intro l st hsz hInv hne
    cases l with
    | nil =>
        rw [visitExprListS]
        exact visitok_pure _ hInv
    | cons e rest =>
        have hs : sizeOf e < n := by simp at hsz; omega
        have hr : sizeOf rest < n := by simp at hsz; omega
        rw [visitExprListS]
        cases hve : visitExprS st e with
        | error er =>
            simp only [exceptBindErr]
            obtain ⟨ne, hn⟩ := hve ▸ IHe e st hs hInv hne
            refine ⟨ne, fun ho => hn ?_⟩
            simp only [opsEL, Bool.and_eq_true] at ho
            exact ho.1
        | ok st1 =>
            simp only [exceptBindOk]
            obtain ⟨i1, s1, b1, f1⟩ := hve ▸ IHe e st hs hInv hne
            have hR := IHel rest st1 hr i1 (namesShape_ne_nil s1 hne)
            cases hvr : visitExprListS st1 rest with
            | error er =>
                obtain ⟨ne, hn⟩ := hvr ▸ hR
                refine ⟨ne, fun ho => hn ?_⟩
                simp only [opsEL, Bool.and_eq_true] at ho
                exact ho.2
            | ok st2 =>
                obtain ⟨i2, s2, b2, f2⟩ := hvr ▸ hR
                exact ⟨i2, s2.trans s1, b2.trans b1, f2.trans f1⟩

end SLC

/-- C4, counterexample: a program whose only unusual feature is a `<`
comparison — it has no use before declaration, no redeclaration and no
undeclared assignment — is rejected by the resolver with
`cannotCompileOperator`, which is not one of the claim's name
conditions.  The resolver therefore can fail because of which operators
the program uses. -/
theorem c4_counterexample :
    SLC.check (.block ⟨.BeginBlock, 0, 0, ""⟩
      [.expression (.binary ⟨.CompareLess, 1, 2, "<"⟩
        (.number ⟨.NumberTok, 1, 1, "1"⟩)
        (.number ⟨.NumberTok, 1, 3, "2"⟩))]) =
      .error .cannotCompileOperator ∧
    SLC.CheckError.isNameError .cannotCompileOperator = false := by
  refine ⟨?_, rfl⟩
  simp [SLC.check, SLC.newScope, SLC.visitExprS, SLC.visitBlockS,
    SLC.predeclareBlock, SLC.visitStmtsS, SLC.visitStmtS, SLC.supportedOp,
    imInsert, Except.map, Bind.bind, Except.bind]

/-- C4 (amended): on a block-shaped program all of whose binary
operators are among the accepted ones (`+ - * / ==`), every failure of
the syntax-level resolver is one of the name errors (use before
definition, duplicate declaration, double definition, assignment to an
undeclared name, or an unresolvable name) — in particular it is never a
panic and never the operator restriction. -/
theorem c4_name_errors_only (tok : Token) (stmts : List SLC.SStmt)
    (err : SLC.CheckError)
    (hops : SLC.opsE (.block tok stmts) = true)
    (hcheck : SLC.check (.block tok stmts) = .error err) :
    err ≠ SLC.CheckError.panicked ∧ err.isNameError = true := by
  have hunfold : SLC.check (.block tok stmts)
      = (SLC.visitExprS
          ⟨[⟨.Block, tok, []⟩], 0, [tok, tok], [], [(tok, [])], []⟩
          (.block tok stmts)).map
          (fun st => (st.variableTypes, st.closedNames)) := rfl
  rw [hunfold] at hcheck
  have hInv : SLC.Inv
      ⟨[⟨.Block, tok, []⟩], 0, [tok, tok], [], [(tok, [])], []⟩ := by
    refine ⟨?_, ?_, rfl, ⟨[tok], rfl⟩⟩
    · intro s hs
      simp only [List.mem_singleton] at hs
      subst hs
      simp [lookupA]
    · intro t ht
      simp at ht
  have hm := (SLC.visit_sound (sizeOf (SLC.SExpr.block tok stmts))).1
      (SLC.SExpr.block tok stmts)
      ⟨[⟨.Block, tok, []⟩], 0, [tok, tok], [], [(tok, [])], []⟩
      le_rfl hInv (by simp)
  cases hv : SLC.visitExprS
      ⟨[⟨.Block, tok, []⟩], 0, [tok, tok], [], [(tok, [])], []⟩
      (SLC.SExpr.block tok stmts) with
  | ok st' =>
      rw [hv] at hcheck
      simp [Except.map] at hcheck
  | error e =>
      rw [hv] at hcheck
      simp only [Except.map, Except.error.injEq] at hcheck
      subst hcheck
      obtain ⟨hne, hn⟩ := hv ▸ hm
      exact ⟨hne, hn hops⟩

/-- C4, witness: the amended theorem applied to a concrete program
referencing an undeclared name, which fails with `noSuchVariable`. -/
theorem c4_witness :
    SLC.CheckError.noSuchVariable ≠ SLC.CheckError.panicked ∧
    SLC.CheckError.isNameError SLC.CheckError.noSuchVariable = true :=
  c4_name_errors_only ⟨.BeginBlock, 0, 0, ""⟩
    [.expression (.name ⟨.NameTok, 1, 1, "x"⟩)]
    SLC.CheckError.noSuchVariable
    (by simp [SLC.opsE, SLC.opsL, SLC.opsS])
    (by simp [SLC.check, SLC.newScope, SLC.visitExprS, SLC.visitBlockS,
      SLC.predeclareBlock, SLC.visitStmtsS, SLC.visitStmtS,
      SLC.lookupLocal, SLC.goLocal, lookupA, imInsert, Except.map,
      Bind.bind, Except.bind])

end Spec2Proof
